import Mathlib

/-!
Verification of the sui-nautilus nodejs-task core against its specification.

The definitions below are a shallow embedding of the JavaScript sources
`src/nautilus-server/src/nodejs-task/index.js`,
`src/nautilus-server/src/nodejs-task/utils/rate-limiter.js` and the
`SummaryReporter` (`recordError` and friends).  Numbers are modelled as
`Nat`/`Int`, strings as `String`, JS `Map` objects as insertion-ordered
association lists, `Math.random()` draws as an explicit index oracle, and
the cooperative (single-threaded, suspension-point interleaved) concurrency
of the async code as labelled transition systems whose steps correspond to
the synchronous segments between `await` points.
-/

namespace Nautilus

/-! ### Substring search (JS `String.prototype.includes`) -/

/-- `startsWithL s pat`: the char list `s` starts with `pat`. -/
def startsWithL : List Char → List Char → Bool
  | _, [] => true
  | [], _ :: _ => false
  | c :: cs, p :: ps => c == p && startsWithL cs ps

/-- `containsSub pat s`: `pat` occurs as a contiguous substring of `s`. -/
def containsSub (pat : List Char) : List Char → Bool
  | [] => pat.isEmpty
  | c :: rest => startsWithL (c :: rest) pat || containsSub pat rest

/-- JS `s.includes(pat)`. -/
def strIncludes (s pat : String) : Bool :=
  containsSub pat.toList s.toList

/-! ### RateLimiter (utils/rate-limiter.js)

A JS error value, restricted to the fields `isRateLimitError` inspects
(`message`, `status`, `statusCode`). -/

structure JsError where
  message : String
  status : Option Nat
  statusCode : Option Nat
deriving DecidableEq

/-- `RateLimiter.isRateLimitError` (rate-limiter.js lines 48-57). -/
def isRateLimitError (e : JsError) : Bool :=
  strIncludes e.message "429" || strIncludes e.message "Rate Limit" ||
  strIncludes e.message "Too Many Requests" ||
  e.status == some 429 || e.statusCode == some 429

/-- `RateLimiter.getRetryDelay` (rate-limiter.js lines 59-64):
`Math.min(1000 * Math.pow(2, retryCount), 10000)`. -/
def getRetryDelay (retryCount : Nat) : Nat :=
  min (1000 * 2 ^ retryCount) 10000

/-- The repository's `MAX_RETRIES` constant (index.js line 33). -/
def MAX_RETRIES : Nat := 3

/-- A queued operation: an identifier for the submitted function plus the
`retryCount` it was enqueued with. -/
structure RLTask where
  tid : Nat
  retryCount : Nat
deriving DecidableEq

/-- Rate limiter state: the `running` counter and FIFO `queue` of the JS
class, plus the multiset of in-flight `fn()` calls (`active`), tasks whose
slot has been freed and which are sleeping out their backoff delay before
re-enqueueing (`sleeping`), and the outcomes delivered to callers. -/
structure RLState where
  running : Nat
  queue : List RLTask
  active : List RLTask
  sleeping : List RLTask
  resolved : List Nat
  rejected : List (Nat × JsError)
deriving DecidableEq

def RLState.init : RLState := ⟨0, [], [], [], [], []⟩

inductive RLLabel
  | submit (t : RLTask)
  | start (t : RLTask)
  | finishOk (t : RLTask)
  | finishReject (t : RLTask) (e : JsError)
  | retryWait (t : RLTask) (e : JsError) (delay : Nat)
  | requeue (t : RLTask)
deriving DecidableEq

/-- One synchronous segment of `execute`/`process` (rate-limiter.js lines
39-121), between suspension points, under an arbitrary cooperative
schedule:
* `submit`: `execute(fn)` pushes `{fn, retryCount: 0}` onto the queue;
* `start`: `process()` finds `running < maxConcurrent` and a non-empty
  queue, increments `running` and shifts the head into flight;
* `finishOk`: an in-flight `fn()` resolves; the slot is freed;
* `finishReject`: `fn()` rejects and the error is not rate-limited or the
  retry budget is exhausted; the caller is rejected terminally;
* `retryWait`: `fn()` rejects rate-limited with budget remaining; the slot
  is freed and the task sleeps `getRetryDelay retryCount` ms;
* `requeue`: the backoff delay elapses and the task re-enters the back of
  the queue with `retryCount + 1`.
The outcome of each attempt is chosen by the environment (the label). -/
inductive RLStep (maxConcurrent maxRetries : Nat) : RLState → RLLabel → RLState → Prop
  | submit (s : RLState) (tid : Nat) :
      RLStep maxConcurrent maxRetries s (.submit ⟨tid, 0⟩)
        { s with queue := s.queue ++ [⟨tid, 0⟩] }
  | start (s : RLState) (t : RLTask) (q : List RLTask) :
      s.running < maxConcurrent → s.queue = t :: q →
      RLStep maxConcurrent maxRetries s (.start t)
        { s with running := s.running + 1, queue := q, active := s.active ++ [t] }
  | finishOk (s : RLState) (t : RLTask) :
      t ∈ s.active →
      RLStep maxConcurrent maxRetries s (.finishOk t)
        { s with running := s.running - 1, active := s.active.erase t,
                 resolved := s.resolved ++ [t.tid] }
  | finishReject (s : RLState) (t : RLTask) (e : JsError) :
      t ∈ s.active →
      ¬(isRateLimitError e = true ∧ t.retryCount < maxRetries) →
      RLStep maxConcurrent maxRetries s (.finishReject t e)
        { s with running := s.running - 1, active := s.active.erase t,
                 rejected := s.rejected ++ [(t.tid, e)] }
  | retryWait (s : RLState) (t : RLTask) (e : JsError) :
      t ∈ s.active → isRateLimitError e = true → t.retryCount < maxRetries →
      RLStep maxConcurrent maxRetries s (.retryWait t e (getRetryDelay t.retryCount))
        { s with running := s.running - 1, active := s.active.erase t,
                 sleeping := s.sleeping ++ [t] }
  | requeue (s : RLState) (t : RLTask) :
      t ∈ s.sleeping →
      RLStep maxConcurrent maxRetries s (.requeue t)
        { s with sleeping := s.sleeping.erase t,
                 queue := s.queue ++ [⟨t.tid, t.retryCount + 1⟩] }

/-- Labelled reachability for the rate limiter. -/
inductive RLReach (mc mr : Nat) : RLState → List RLLabel → RLState → Prop
  | refl (s : RLState) : RLReach mc mr s [] s
  | step (s : RLState) (ls : List RLLabel) (t : RLState) (ℓ : RLLabel) (t' : RLState) :
      RLReach mc mr s ls t → RLStep mc mr t ℓ t' → RLReach mc mr s (ls ++ [ℓ]) t'

/-! ### Stratified patch selection (index.js lines 316-336 and 854-863) -/

/-- `GROUP_SIZE` (index.js line 36). -/
def GROUP_SIZE : Nat := 100

/-- `SELECT_PER_GROUP` (index.js line 37). -/
def SELECT_PER_GROUP : Nat := 30

/-- Contiguous chunking: `for (let i = 0; i < l.length; i += k)
groups.push(l.slice(i, i + k))` (index.js lines 317-320).  The fuel
argument (initially the list length) only serves structural termination:
each round consumes at least one element. -/
def chunkGo (k : Nat) : Nat → List α → List (List α)
  | 0, _ => []
  | _, [] => []
  | fuel + 1, x :: xs => (x :: xs.take (k - 1)) :: chunkGo k fuel (xs.drop (k - 1))

def chunkList (k : Nat) (l : List α) : List (List α) :=
  chunkGo k l.length l

/-- Body of the `while (result.length < n)` loop of `getRandomItems`:
`idx = Math.floor(Math.random() * copy.length); result.push(copy.splice(idx, 1)[0])`.
The `Math.random()` draws are an oracle `rand`; `rand step % copy.length`
lands in `[0, copy.length)` exactly like the JS expression.  (The `none`
branch is unreachable: the loop is only entered with `n < arr.length`.) -/
def sampleLoop : Nat → List α → (Nat → Nat) → Nat → List α
  | 0, _, _, _ => []
  | n + 1, copy, rand, step =>
    let i := rand step % copy.length
    match copy.get? i with
    | none => []
    | some x => x :: sampleLoop n (copy.eraseIdx i) rand (step + 1)

/-- `getRandomItems` (index.js lines 854-863): returns `arr` itself when
`arr.length <= n`, otherwise draws `n` elements without replacement. -/
def getRandomItems (arr : List α) (n : Nat) (rand : Nat → Nat) : List α :=
  if arr.length ≤ n then arr else sampleLoop n arr rand 0

/-- The patch-selection loop (index.js lines 325-334): chunk into groups of
`GROUP_SIZE`, draw `min(SELECT_PER_GROUP, group.length)` from each group,
concatenate in group order.  `rand g` is the oracle for group `g`'s draws. -/
def selectPatches (patches : List α) (rand : Nat → Nat → Nat) : List α :=
  ((chunkList GROUP_SIZE patches).enum.map
    (fun gi => getRandomItems gi.2 (min SELECT_PER_GROUP gi.2.length) (rand gi.1))).flatten

/-! ### Per-conversation message selection (index.js lines 622-712)

A raw message of a decrypted chat.  `fromId` models `msg.fromId?.userId`
(the only use of `fromId` in the pipeline); `date` is the Unix-seconds
timestamp. -/

structure RawMsg where
  id : Nat
  message : String
  date : Int
  fromId : Option String
deriving DecidableEq

structure ChatData where
  chat_id : Int
  contents : List RawMsg
deriving DecidableEq

/-- The normalized `patchData` fed to `processMessagesByMessage`: an owner
`user` and a `chats` array. -/
structure PatchData where
  user : String
  chats : List ChatData
deriving DecidableEq

/-- A message wrapped with chat context (index.js lines 636-643). -/
structure SelMsg where
  id : Nat
  message : String
  date : Int
  fromId : Option String
  chat_id : Int
  user_id : String
deriving DecidableEq

def wrapMsg (chatId : Int) (user : String) (m : RawMsg) : SelMsg :=
  ⟨m.id, m.message, m.date, m.fromId, chatId, user⟩

/-- JS `String.prototype.trim`: strip whitespace from both ends. -/
def trimChars (l : List Char) : List Char :=
  ((l.dropWhile (fun c => c.isWhitespace)).reverse.dropWhile
    (fun c => c.isWhitespace)).reverse

/-- Stage 1 (index.js lines 656-661): non-empty trimmed text and
`new Date(m.date * 1000) > cutoffTime` where
`cutoffTime = now - 16 * 60 * 60 * 1000` ms. -/
def passesTextAndCutoff (nowMs : Int) (m : SelMsg) : Bool :=
  decide (0 < (trimChars m.message.toList).length) &&
  decide (nowMs - 16 * 60 * 60 * 1000 < m.date * 1000)

/-- Stage 2 (index.js lines 664-669): keep messages whose
`emojiCount / length < 0.2`.  `isEmoji` is the predicate denoted by the
regex `\p{Emoji_Presentation}` (left abstract: no claim depends on the
Unicode table), and the exact rational comparison `5 * count < length`
renders the JS float comparison (the two can only disagree for lengths
beyond 10^16).  JS counts UTF-16 units where we count code points; the
difference is irrelevant to the claims. -/
def emojiRatioBelow (isEmoji : Char → Bool) (m : SelMsg) : Bool :=
  decide (5 * m.message.toList.countP isEmoji < m.message.toList.length)

/-- JS `s.split(sep)` for a one-character separator. -/
def splitOnChar (sep : Char) : List Char → List (List Char)
  | [] => [[]]
  | c :: rest =>
    if c = sep then [] :: splitOnChar sep rest
    else
      match splitOnChar sep rest with
      | [] => [[c]]
      | w :: ws => (c :: w) :: ws

/-- `m.message.split(" ").length` (index.js lines 683, 687). -/
def wordCount (s : String) : Nat := (splitOnChar ' ' s.toList).length

def mediumFilter (m : SelMsg) : Bool :=
  decide (15 ≤ wordCount m.message) && decide (wordCount m.message ≤ 20)

def longFilter (m : SelMsg) : Bool :=
  decide (20 < wordCount m.message) && decide (wordCount m.message ≤ 50)

/-- A JS `Map` keyed by message text, as an insertion-ordered association
list: `set` replaces in place or appends, `get` looks up. -/
def mapSetStr (acc : List (String × SelMsg)) (k : String) (v : SelMsg) :
    List (String × SelMsg) :=
  match acc with
  | [] => [(k, v)]
  | (k', v') :: rest => if k' = k then (k, v) :: rest else (k', v') :: mapSetStr rest k v

def mapGetStr (acc : List (String × SelMsg)) (k : String) : Option SelMsg :=
  match acc with
  | [] => none
  | (k', v') :: rest => if k' = k then some v' else mapGetStr rest k

/-- Stage 3, one loop iteration (index.js lines 672-678):
`if (!existing || m.date > existing.date) uniqueMap.set(m.message, m)`. -/
def dedupStep (acc : List (String × SelMsg)) (m : SelMsg) : List (String × SelMsg) :=
  match mapGetStr acc m.message with
  | none => mapSetStr acc m.message m
  | some existing => if existing.date < m.date then mapSetStr acc m.message m else acc

/-- Stage 3 (index.js lines 672-679): deduplicate by exact text, keeping
the latest; `Array.from(uniqueMap.values())` preserves first-insertion
order of keys. -/
def dedupeByText (l : List SelMsg) : List SelMsg :=
  (l.foldl dedupStep []).map Prod.snd

/-- Stages 1-5 for one chat (index.js lines 647-695): filter, dedup,
bucket by word count, then `getRandomItems(medium, 5)` and
`getRandomItems(long, 5)`. -/
def chatPipeline (nowMs : Int) (isEmoji : Char → Bool) (randM randL : Nat → Nat)
    (user : String) (chat : ChatData) : List SelMsg :=
  let wrapped := chat.contents.map (wrapMsg chat.chat_id user)
  let nonEmpty := wrapped.filter (passesTextAndCutoff nowMs)
  let nonEmoji := nonEmpty.filter (emojiRatioBelow isEmoji)
  let deduped := dedupeByText nonEmoji
  let medium := deduped.filter mediumFilter
  let long := deduped.filter longFilter
  getRandomItems medium 5 randM ++ getRandomItems long 5 randL

/-- The `messageIndexMap` (a JS `Map` from flat index to
`{chatIndex, contentIndex}`), as an association list with `set`/`get`. -/
def mapSetIdx (imap : List (Nat × Nat × Nat)) (k : Nat) (v : Nat × Nat) :
    List (Nat × Nat × Nat) :=
  match imap with
  | [] => [(k, v)]
  | (k', v') :: rest => if k' = k then (k, v) :: rest else (k', v') :: mapSetIdx rest k v

def mapGetIdx (imap : List (Nat × Nat × Nat)) (k : Nat) : Option (Nat × Nat) :=
  match imap with
  | [] => none
  | (k', v') :: rest => if k' = k then some v' else mapGetIdx rest k

/-- The side effect of the `chat.contents.map((msg, contentIndex) => ...)`
callback (index.js lines 636-643): for every `contentIndex` it executes
`messageIndexMap.set(flatIndex, { chatIndex, contentIndex })`, where
`flatIndex = selectedMessages.length` was captured once before the map ran
and therefore is the same key for every message of the chat. -/
def recordChatIndices (imap : List (Nat × Nat × Nat)) (flatIndex chatIndex : Nat)
    (contents : List RawMsg) : List (Nat × Nat × Nat) :=
  contents.enum.foldl (fun im ci => mapSetIdx im flatIndex (chatIndex, ci.1)) imap

/-- Main selection loop over chats (index.js lines 630-699).  A chat is
skipped when `chat.chat_id === socialTruthBotId`; `chatIndex` advances for
every chat.  `rand (2 * chatIndex)` and `rand (2 * chatIndex + 1)` are the
oracles for the two `getRandomItems` calls of that chat. -/
def selectLoop (botId : Int) (nowMs : Int) (isEmoji : Char → Bool)
    (rand : Nat → Nat → Nat) (user : String) :
    Nat → List SelMsg → List (Nat × Nat × Nat) → List ChatData →
    List SelMsg × List (Nat × Nat × Nat)
  | _, selected, imap, [] => (selected, imap)
  | chatIndex, selected, imap, chat :: rest =>
    if chat.chat_id = botId then
      selectLoop botId nowMs isEmoji rand user (chatIndex + 1) selected imap rest
    else
      let imap' := recordChatIndices imap selected.length chatIndex chat.contents
      let chosen := chatPipeline nowMs isEmoji (rand (2 * chatIndex))
        (rand (2 * chatIndex + 1)) user chat
      selectLoop botId nowMs isEmoji rand user (chatIndex + 1) (selected ++ chosen) imap' rest

/-- The selection phase of `processMessagesByMessage` (index.js lines
622-699): returns the selected messages and the `messageIndexMap`. -/
def selectMessages (botId : Int) (nowMs : Int) (isEmoji : Char → Bool)
    (rand : Nat → Nat → Nat) (p : PatchData) :
    List SelMsg × List (Nat × Nat × Nat) :=
  selectLoop botId nowMs isEmoji rand p.user 0 [] [] p.chats

/-! ### Vector record construction (index.js lines 774-795) -/

structure EmbedArgs where
  originalBlobId : String
  onChainFileObjId : String
  policyObjectId : String
deriving DecidableEq

structure VectorMeta where
  message_id : Nat
  message_index : Nat
  chat_index : Option Nat
  content_index : Option Nat
  user_id : String
  chat_id : Int
  from_id : Option String
  original_blob_id : String
  on_chain_file_obj_id : String
  policy_object_id : String
  embedding_dimensions : Nat
deriving DecidableEq

structure VectorRecord where
  id : Nat
  vector : List Int
  metadata : VectorMeta
deriving DecidableEq

/-- `vectorBatch = batch.map((message, j) => ...)` (index.js lines
774-795): `currentMessageIndex = startIndex + j`,
`rawPosition = messageIndexMap.get(currentMessageIndex)`, and the metadata
uses `rawPosition?.chatIndex` / `rawPosition?.contentIndex` (absent when
the lookup misses).  Embedding vectors are supplied by the provider
outcome list, order-preserving with the batch. -/
def buildVectorBatch (imap : List (Nat × Nat × Nat)) (args : EmbedArgs)
    (batch : List SelMsg) (startIndex : Nat) (embeds : List (List Int)) :
    List VectorRecord :=
  (batch.zip embeds).enum.map (fun je =>
    let j := je.1
    let m := je.2.1
    let emb := je.2.2
    let currentMessageIndex := startIndex + j
    let rawPosition := mapGetIdx imap currentMessageIndex
    { id := m.id, vector := emb,
      metadata := {
        message_id := m.id,
        message_index := currentMessageIndex,
        chat_index := rawPosition.map Prod.fst,
        content_index := rawPosition.map Prod.snd,
        user_id := m.user_id, chat_id := m.chat_id, from_id := m.fromId,
        original_blob_id := args.originalBlobId,
        on_chain_file_obj_id := args.onChainFileObjId,
        policy_object_id := args.policyObjectId,
        embedding_dimensions := emb.length } })

/-! ### Batch orchestration (index.js lines 732-851 and `parallelProcess`
lines 866-884)

Per-message provider outcomes, as returned by `embedBatch` /
`storeBatch`: a success flag and an error string (empty rendering a
missing/falsy `error` field). -/

structure EmbedRes where
  success : Bool
  error : String
deriving DecidableEq

structure StoreRes where
  success : Bool
  error : String
deriving DecidableEq

/-- The environment: what the embedding provider and the vector store
answer for each batch index. -/
structure OrchEnv where
  embed : Nat → List EmbedRes
  store : Nat → List StoreRes

/-- `allBatches` (index.js lines 733-739): chunks of `batchSize` paired
with their `startIndex`. -/
def mkBatches (msgs : List SelMsg) (batchSize : Nat) : List (List SelMsg × Nat) :=
  (chunkList batchSize msgs).enum.map (fun ic => (ic.2, ic.1 * batchSize))

def numBatches (msgs : List SelMsg) (bs : Nat) : Nat := (mkBatches msgs bs).length

def batchAt (msgs : List SelMsg) (bs b : Nat) : List SelMsg :=
  (((mkBatches msgs bs).get? b).map Prod.fst).getD []

/-- `Failed to generate embedding for message ${batch[j].id}: ${... || "Unknown error"}`
(index.js line 767). -/
def orUnknown (e : String) : String := if e = "" then "Unknown error" else e

def embedFailError (id : Nat) (e : String) : String :=
  "Failed to generate embedding for message " ++ toString id ++ ": " ++ orUnknown e

/-- `Failed to store vector for message ${failedMessage}: ...` (index.js line 802). -/
def storeFailError (id : Nat) (e : String) : String :=
  "Failed to store vector for message " ++ toString id ++ ": " ++ orUnknown e

/-- Index of the first failed outcome in a batch's embedding results
(the loop at index.js lines 765-771 throws at the first `!success`). -/
def embedFailIdx (env : OrchEnv) (b : Nat) : Option Nat :=
  (env.embed b).findIdx? (fun r => !r.success)

/-- Index of the first failed store outcome (index.js lines 799-806). -/
def storeFailIdx (env : OrchEnv) (b : Nat) : Option Nat :=
  (env.store b).findIdx? (fun r => !r.success)

def embedErrAt (env : OrchEnv) (b j : Nat) : String :=
  (((env.embed b).get? j).map EmbedRes.error).getD ""

def storeErrAt (env : OrchEnv) (b j : Nat) : String :=
  (((env.store b).get? j).map StoreRes.error).getD ""

def msgIdAt (msgs : List SelMsg) (bs b j : Nat) : Nat :=
  (((batchAt msgs bs b).get? j).map SelMsg.id).getD 0

/-- The outcome of `processMessagesByMessage` restricted to the fields the
specification talks about: on success (index.js lines 830-839)
`processedCount = selectedMessages.length` with the embedding/storage
counters; on failure (lines 819-827) `processedCount =
stats.successfulEmbeddings` and the thrown error message.  (The constant
fields `operation`, `failureReason`, `totalMessages`, `errors` and
`successfulWalrusUploads` are omitted.) -/
inductive RunResult
  | success (processedCount successfulEmbeddings successfulVectorStorages : Nat)
  | failed (processedCount : Nat) (error : String)
deriving DecidableEq

/-- Worker status inside `parallelProcess`: between claiming and the
`embedBatch` suspension point, between `embedBatch` and `storeBatch`,
finished the `while` loop, or terminated by a thrown error. -/
inductive WStatus
  | idle
  | awaitEmbed (b : Nat)
  | awaitStore (b : Nat)
  | done
  | crashed
deriving DecidableEq

inductive OLabel
  | claim (w b : Nat)
  | noMore (w : Nat)
  | embedOk (w b : Nat)
  | embedFail (w b j : Nat)
  | storeOk (w b : Nat)
  | storeFail (w b j : Nat)
deriving DecidableEq

/-- Orchestrator state: the shared cursor `index` of `parallelProcess`;
the `stats.successfulEmbeddings` / `stats.successfulVectorStorages`
counters; per-worker statuses; the settled outcome of the surrounding
`try`/`catch` (`none` while `Promise.all` is pending); and the ghost
history `completed` of batch indices whose store phase finished. -/
structure OState where
  next : Nat
  succEmb : Nat
  succStore : Nat
  workers : List WStatus
  result : Option RunResult
  completed : List Nat
deriving DecidableEq

/-- Workers are `Array(Math.min(concurrency, items.length))` with
`concurrency = 4` (index.js lines 814, 878). -/
def initOState (msgs : List SelMsg) (bs : Nat) : OState :=
  ⟨0, 0, 0, List.replicate (min 4 (numBatches msgs bs)) .idle, none, []⟩

def allDone (ws : List WStatus) : Bool := ws.all (· == .done)

/-- One synchronous segment of `parallelProcess` with the orchestrator's
`processFn` inlined (index.js lines 744-828, 866-884), under an arbitrary
cooperative schedule:
* `claim`: an idle worker finds `index < items.length` and claims
  `index++`, then calls `embedBatch` (a suspension point);
* `noMore`: an idle worker finds the cursor exhausted and leaves its loop;
  when it is the last one, `Promise.all` resolves and the success result
  (with `processedCount = selectedMessages.length`) is returned;
* `embedOk`: `embedBatch` resolves with no failed outcome; the records are
  built synchronously and `storeBatch` is awaited;
* `embedFail`: some outcome failed; the loop at lines 765-771 throws at
  the first failed index `j`; the worker dies, `Promise.all` rejects and
  the `catch` immediately fixes the failed result (with `processedCount =
  stats.successfulEmbeddings`) unless a result was already settled;
* `storeOk`: every store outcome succeeded; the counters grow by the
  batch length and the worker loops back to claim;
* `storeFail`: a store outcome failed; as `embedFail` with the storage
  error message. -/
inductive OStep (msgs : List SelMsg) (bs : Nat) (env : OrchEnv) :
    OState → OLabel → OState → Prop
  | claim (s : OState) (w : Nat) :
      s.workers.get? w = some .idle → s.next < numBatches msgs bs →
      OStep msgs bs env s (.claim w s.next)
        { s with next := s.next + 1, workers := s.workers.set w (.awaitEmbed s.next) }
  | noMore (s : OState) (w : Nat) :
      s.workers.get? w = some .idle → numBatches msgs bs ≤ s.next →
      OStep msgs bs env s (.noMore w)
        { s with workers := s.workers.set w .done,
                 result := if allDone (s.workers.set w .done) && (s.result == none)
                           then some (.success msgs.length s.succEmb s.succStore)
                           else s.result }
  | embedOk (s : OState) (w b : Nat) :
      s.workers.get? w = some (.awaitEmbed b) → embedFailIdx env b = none →
      OStep msgs bs env s (.embedOk w b)
        { s with workers := s.workers.set w (.awaitStore b) }
  | embedFail (s : OState) (w b j : Nat) :
      s.workers.get? w = some (.awaitEmbed b) → embedFailIdx env b = some j →
      OStep msgs bs env s (.embedFail w b j)
        { s with workers := s.workers.set w .crashed,
                 result := if s.result == none
                           then some (.failed s.succEmb
                             (embedFailError (msgIdAt msgs bs b j) (embedErrAt env b j)))
                           else s.result }
  | storeOk (s : OState) (w b : Nat) :
      s.workers.get? w = some (.awaitStore b) → storeFailIdx env b = none →
      OStep msgs bs env s (.storeOk w b)
        { s with succEmb := s.succEmb + (batchAt msgs bs b).length,
                 succStore := s.succStore + (batchAt msgs bs b).length,
                 workers := s.workers.set w .idle,
                 completed := s.completed ++ [b] }
  | storeFail (s : OState) (w b j : Nat) :
      s.workers.get? w = some (.awaitStore b) → storeFailIdx env b = some j →
      OStep msgs bs env s (.storeFail w b j)
        { s with workers := s.workers.set w .crashed,
                 result := if s.result == none
                           then some (.failed s.succEmb
                             (storeFailError (msgIdAt msgs bs b j) (storeErrAt env b j)))
                           else s.result }

inductive OReach (msgs : List SelMsg) (bs : Nat) (env : OrchEnv) :
    OState → List OLabel → OState → Prop
  | refl (s : OState) : OReach msgs bs env s [] s
  | step (s : OState) (ls : List OLabel) (t : OState) (ℓ : OLabel) (t' : OState) :
      OReach msgs bs env s ls t → OStep msgs bs env t ℓ t' →
      OReach msgs bs env s (ls ++ [ℓ]) t'

/-- Total size of a (ghost) list of completed batches. -/
def sumSizes (msgs : List SelMsg) (bs : Nat) (completed : List Nat) : Nat :=
  (completed.map (fun b => (batchAt msgs bs b).length)).sum

/-- `processedCount` the claim predicts for a failure in batch `k`: the
number of messages in batches `1..k-1`. -/
def msgsBeforeBatch (msgs : List SelMsg) (bs k : Nat) : Nat :=
  (((mkBatches msgs bs).take k).map (fun p => p.1.length)).sum

def isThrowLabel : OLabel → Bool
  | .embedFail _ _ _ => true
  | .storeFail _ _ _ => true
  | _ => false

def isClaimLabel : OLabel → Bool
  | .claim _ _ => true
  | _ => false

/-- A trace contains a claim event strictly after a throw event. -/
def claimAfterThrow : List OLabel → Bool
  | [] => false
  | ℓ :: rest => (isThrowLabel ℓ && rest.any isClaimLabel) || claimAfterThrow rest

/-- The early return for an empty selection (index.js lines 701-712):
`{status: "success", processedCount: 0, successfulEmbeddings: 0,
successfulVectorStorages: 0, ...}`. -/
def emptyRunResult : RunResult := .success 0 0 0

/-- Top-level behaviour of `processMessagesByMessage` on one patch: either
the empty-selection early return (before any provider or store call, hence
the empty trace), or a completed run of the batch machine. -/
inductive PatchRun (botId : Int) (nowMs : Int) (isEmoji : Char → Bool)
    (rand : Nat → Nat → Nat) (p : PatchData) (bs : Nat) (env : OrchEnv) :
    List OLabel → RunResult → Prop
  | empty : (selectMessages botId nowMs isEmoji rand p).1 = [] →
      PatchRun botId nowMs isEmoji rand p bs env [] emptyRunResult
  | run (ls : List OLabel) (s : OState) (r : RunResult) :
      (selectMessages botId nowMs isEmoji rand p).1 ≠ [] →
      OReach (selectMessages botId nowMs isEmoji rand p).1 bs env
        (initOState (selectMessages botId nowMs isEmoji rand p).1 bs) ls s →
      s.result = some r →
      PatchRun botId nowMs isEmoji rand p bs env ls r

/-! ### Run aggregation (SummaryReporter) and the final status
(index.js lines 577-592) -/

def isSuccessResult : RunResult → Bool
  | .success _ _ _ => true
  | .failed _ _ => false

/-- `failedResults.length === 0 ? "success" : (successfulResults.length > 0
? "partial" : "failed")` over the per-patch results (index.js lines
577-583). -/
def finalStatus (allResults : List RunResult) : String :=
  if (allResults.filter (fun r => !isSuccessResult r)).length = 0 then "success"
  else if 0 < (allResults.filter isSuccessResult).length then "partial"
  else "failed"

/-! #### `SummaryReporter.recordError` (summary-reporter.js lines 87-190)

The status-code regex
`/(?:status code|HTTP|status):\s*(\d{3})|HTTP\s+(\d{3})|(\d{3})\s+(?:Bad Request|...)/i`
is rendered operationally: scan start positions left to right; at each
position try the three alternatives in order (and within the first, the
three literal options in order, with backtracking); case-insensitivity by
lowercasing text and patterns. -/

def lowerChars (s : String) : List Char := s.toList.map Char.toLower

/-- Parse exactly three consecutive digits (`\d{3}`), returning their
value. -/
def parse3Digits : List Char → Option Nat
  | a :: b :: c :: _ =>
    if a.isDigit && b.isDigit && c.isDigit then
      some ((a.toNat - 48) * 100 + (b.toNat - 48) * 10 + (c.toNat - 48))
    else none
  | _ => none

def dropWS (l : List Char) : List Char := l.dropWhile (fun c => c.isWhitespace)

/-- Try `lit` then `:` then `\s*` then `(\d{3})` at the current position. -/
def tryStatusColon (lit : String) (l : List Char) : Option Nat :=
  if startsWithL l lit.toList then
    match l.drop lit.toList.length with
    | ':' :: rest => parse3Digits (dropWS rest)
    | _ => none
  else none

/-- First alternative `(?:status code|HTTP|status):\s*(\d{3})`. -/
def tryAltP1 (l : List Char) : Option Nat :=
  (tryStatusColon "status code" l) <|> (tryStatusColon "http" l) <|>
  (tryStatusColon "status" l)

/-- Second alternative `HTTP\s+(\d{3})`. -/
def tryAltP2 (l : List Char) : Option Nat :=
  if startsWithL l "http".toList then
    match l.drop 4 with
    | c :: rest => if c.isWhitespace then parse3Digits (dropWS rest) else none
    | [] => none
  else none

def p3Phrases : List String :=
  ["bad request", "unauthorized", "forbidden", "not found", "timeout",
   "rate limit", "internal server error", "bad gateway",
   "service unavailable", "gateway timeout"]

/-- Third alternative `(\d{3})\s+(?:Bad Request|...|Gateway Timeout)`. -/
def tryAltP3 (l : List Char) : Option Nat :=
  match parse3Digits l with
  | none => none
  | some n =>
    match l.drop 3 with
    | c :: rest =>
      if c.isWhitespace &&
         p3Phrases.any (fun p => startsWithL (dropWS rest) p.toList) then
        some n
      else none
    | [] => none

/-- Leftmost match of the full alternation. -/
def scanStatus : List Char → Option Nat
  | [] => none
  | c :: rest =>
    match tryAltP1 (c :: rest) <|> tryAltP2 (c :: rest) <|> tryAltP3 (c :: rest) with
    | some n => some n
    | none => scanStatus rest

/-- `message.match(httpStatusRegex)` with the extracted 3-digit code
(summary-reporter.js line 93). -/
def matchHttpStatus (s : String) : Option Nat := scanStatus (lowerChars s)

/-- The `statusNames` table (summary-reporter.js lines 101-112). -/
def statusName (n : Nat) : Option String :=
  if n = 400 then some "Bad Request (400)"
  else if n = 401 then some "Unauthorized (401)"
  else if n = 403 then some "Forbidden (403)"
  else if n = 404 then some "Not Found (404)"
  else if n = 408 then some "Request Timeout (408)"
  else if n = 429 then some "Rate Limit (429)"
  else if n = 500 then some "Internal Server Error (500)"
  else if n = 502 then some "Bad Gateway (502)"
  else if n = 503 then some "Service Unavailable (503)"
  else if n = 504 then some "Gateway Timeout (504)"
  else none

/-- Mapping of a valid code to its aggregation key (summary-reporter.js
lines 114-126). -/
def httpStatusKey (n : Nat) : String :=
  match statusName n with
  | some name => "HTTP " ++ name
  | none =>
    if 400 ≤ n ∧ n < 500 then "HTTP Client Error (" ++ toString n ++ ")"
    else if 500 ≤ n ∧ n < 600 then "HTTP Server Error (" ++ toString n ++ ")"
    else if 100 ≤ n ∧ n < 200 then "HTTP Informational (" ++ toString n ++ ")"
    else "HTTP Status (" ++ toString n ++ ")"

/-- `/decryptFile failed: (.+)/` (summary-reporter.js line 140): the text
after the first occurrence of the literal that is followed by at least one
non-newline character; the capture runs to the end of the line. -/
def decryptPat : List Char := "decryptFile failed: ".toList

def decryptUnderlying : List Char → Option (List Char)
  | [] => none
  | c :: rest =>
    if startsWithL (c :: rest) decryptPat then
      let cap := ((c :: rest).drop decryptPat.length).takeWhile
        (fun ch => !(ch = '\n' || ch = '\r'))
      if cap.isEmpty then decryptUnderlying rest else some cap
    else decryptUnderlying rest

/-- The nested status regex of the decryptFile branch
`/(?:status code|HTTP|status):\s*(\d{3})|HTTP\s+(\d{3})/i`
(summary-reporter.js line 145): the first two alternatives only. -/
def scanStatusNoPhrase : List Char → Option Nat
  | [] => none
  | c :: rest =>
    match tryAltP1 (c :: rest) <|> tryAltP2 (c :: rest) with
    | some n => some n
    | none => scanStatusNoPhrase rest

/-- Inner table of the decryptFile branch (summary-reporter.js lines
152-158). -/
def decryptStatusName (n : Nat) : Option String :=
  if n = 429 then some "Rate Limit (429)"
  else if n = 500 then some "Internal Server Error (500)"
  else if n = 502 then some "Bad Gateway (502)"
  else if n = 503 then some "Service Unavailable (503)"
  else if n = 504 then some "Gateway Timeout (504)"
  else none

/-- Classification of the underlying error of a `decryptFile failed:`
message (summary-reporter.js lines 139-172).  When the inner status match
fires with a code outside 400-599 the JS code sets nothing and `errorKey`
remains the whole raw message. -/
def decryptBranchKey (msg : String) : String :=
  match decryptUnderlying msg.toList with
  | none => msg
  | some cap =>
    let underlying : String := ⟨cap⟩
    match scanStatusNoPhrase (cap.map Char.toLower) with
    | some n =>
      if 400 ≤ n ∧ n < 600 then
        "Decryption Failed: HTTP " ++
          ((decryptStatusName n).getD ("Error (" ++ toString n ++ ")"))
      else msg
    | none =>
      if strIncludes underlying "sealApprove" then "Decryption Failed: Seal Approval Error"
      else if strIncludes underlying "sessionKey" then "Decryption Failed: Session Key Error"
      else "Decryption Failed: " ++
        (if 60 < underlying.length then (⟨cap.take 60⟩ : String) ++ "..." else underlying)

/-- The whole normalization of `recordError` (summary-reporter.js lines
87-178).  A matched status code outside 100-599 leaves the raw message as
key and skips the substring chain, exactly as the `if/else if` chain does. -/
def normalizeErrorKey (msg : String) : String :=
  match matchHttpStatus msg with
  | some n => if 100 ≤ n ∧ n < 600 then httpStatusKey n else msg
  | none =>
    if strIncludes msg "fetch failed" || strIncludes msg "ECONNREFUSED" ||
       strIncludes msg "ENOTFOUND" then "Network/Connection Error"
    else if strIncludes msg "timeout" || strIncludes msg "ETIMEDOUT" then "Timeout Error"
    else if strIncludes msg "sealApprove failed" then "Seal Approval Failed"
    else if strIncludes msg "sessionKey.create" then "Session Key Creation Failed"
    else if strIncludes msg "decryptFile failed" then decryptBranchKey msg
    else if strIncludes msg "Failed to fetch" then "Fetch Operation Failed"
    else if 80 < msg.length then (⟨msg.toList.take 80⟩ : String) ++ "..."
    else msg

/-- The mutable aggregation state of `SummaryReporter` restricted to the
fields the claims concern. -/
structure Stats where
  processedPatches : Nat
  failedProcessing : Nat
  totalMessages : Nat
  successfulEmbeddings : Nat
  successfulVectorStorages : Nat
  errorCounts : List (String × Nat)
  errors : List String
deriving DecidableEq

def Stats.init : Stats := ⟨0, 0, 0, 0, 0, [], []⟩

def bumpCount (counts : List (String × Nat)) (k : String) : List (String × Nat) :=
  match counts with
  | [] => [(k, 1)]
  | (k', c) :: rest => if k' = k then (k', c + 1) :: rest else (k', c) :: bumpCount rest k

def getCount (counts : List (String × Nat)) (k : String) : Nat :=
  match counts with
  | [] => 0
  | (k', c) :: rest => if k' = k then c else getCount rest k

/-- `recordError` (summary-reporter.js lines 87-190): bump the frequency of
the normalized key; store the raw message only on the key's first
occurrence. -/
def recordError (st : Stats) (msg : String) : Stats :=
  let key := normalizeErrorKey msg
  let counts := bumpCount st.errorCounts key
  { st with errorCounts := counts,
            errors := if getCount counts key = 1 then st.errors ++ [msg] else st.errors }

/-- `recordPatchProcessed` (summary-reporter.js lines 76-85). -/
def recordPatchProcessed (st : Stats) (success : Bool)
    (messageCount embeddings vectors : Nat) : Stats :=
  if success then
    { st with processedPatches := st.processedPatches + 1,
              totalMessages := st.totalMessages + messageCount,
              successfulEmbeddings := st.successfulEmbeddings + embeddings,
              successfulVectorStorages := st.successfulVectorStorages + vectors }
  else { st with failedProcessing := st.failedProcessing + 1 }

/-- The per-patch branch of the processing loop (index.js lines 547-559):
a `"success"` result is counted as processed with its counters, a failure
increments `failedProcessing` and records the error (`patchNum` is the
1-based position used in the message). -/
def recordPatchOutcome (st : Stats) (patchNum : Nat) (r : RunResult) : Stats :=
  match r with
  | .success pc se sv => recordPatchProcessed st true pc se sv
  | .failed _ err =>
    recordError (recordPatchProcessed st false 0 0 0)
      ("Patch " ++ toString patchNum ++ " processing failed: " ++ err)

/-! ### Concrete example data -/

/-- A patch with one chat of two plain-ASCII 15-word messages (so both
survive every filter, the medium bucket holds both and `getRandomItems`
returns them unchanged). -/
def c2MsgA : RawMsg := ⟨1, "a a a a a a a a a a a a a a x", 100, none⟩

def c2MsgB : RawMsg := ⟨2, "b b b b b b b b b b b b b b y", 200, none⟩

def c2Patch : PatchData := ⟨"u", [⟨7, [c2MsgA, c2MsgB]⟩]⟩

def c2Selection : List SelMsg × List (Nat × Nat × Nat) :=
  selectMessages 999 0 (fun _ => false) (fun _ _ => 0) c2Patch

def c2Records : List VectorRecord :=
  buildVectorBatch c2Selection.2 ⟨"blob", "obj", "pol"⟩ c2Selection.1 0 [[1], [2]]

/-- Two selected messages forming two size-1 batches. -/
def oMsg (n : Nat) : SelMsg := ⟨n, "m", 0, none, 0, "u"⟩

def msgs2 : List SelMsg := [oMsg 1, oMsg 2]

/-- Batch 0's embedding fails, everything else succeeds. -/
def env2 : OrchEnv :=
  { embed := fun b => if b = 0 then [⟨false, "boom"⟩] else [⟨true, ""⟩],
    store := fun _ => [⟨true, ""⟩] }

/-- Five messages in five size-1 batches for the claim-after-throw trace
(`min 4 5 = 4` workers, so batch 4 is still unclaimed when batch 0's
embedding fails). -/
def msgs5 : List SelMsg := [oMsg 1, oMsg 2, oMsg 3, oMsg 4, oMsg 5]

def env5 : OrchEnv :=
  { embed := fun b => if b = 0 then [⟨false, "boom"⟩] else [⟨true, ""⟩],
    store := fun _ => [⟨true, ""⟩] }

/-- The schedule of the C5 counterexample: all four workers claim (as they
do synchronously at spawn), worker 1 finishes batch 1, worker 0's
`embedBatch` rejects, then worker 1 claims batch 4. -/
def c5Trace : List OLabel :=
  [.claim 0 0, .claim 1 1, .claim 2 2, .claim 3 3,
   .embedOk 1 1, .storeOk 1 1, .embedFail 0 0 0, .claim 1 4]

/-- Duplicate-text messages at timestamps 100 and 200. -/
def dupMsg100 : SelMsg := ⟨1, "dup", 100, none, 0, "u"⟩

def dupMsg200 : SelMsg := ⟨2, "dup", 200, none, 0, "u"⟩

/-- A patch whose selection is empty (no chats at all). -/
def emptyPatch : PatchData := ⟨"u", []⟩

/-- State after `claim 0 0; claim 1 1; embedOk 1 1; storeOk 1 1` on
`msgs2`/`env2`: batch 1 fully completed while batch 0 is still awaiting
its embedding. -/
def c1MidState : OState := ⟨2, 1, 1, [.awaitEmbed 0, .idle], none, [1]⟩

/-- State after batch 0's embedding failure is handled from `c1MidState`. -/
def c1FailState : OState :=
  ⟨2, 1, 1, [.crashed, .idle], some (.failed 1 (embedFailError 1 "boom")), [1]⟩

end Nautilus

namespace Nautilus

theorem startsWithL_nil (pat : List Char) : startsWithL [] pat = pat.isEmpty := by
  cases pat <;> rfl

/-- Preservation of the running-count invariant along one step. -/
theorem rlstep_inv {mc mr : Nat} {s : RLState} {ℓ : RLLabel} {s' : RLState}
    (h : RLStep mc mr s ℓ s')
    (hinv : s.running = s.active.length ∧ s.running ≤ mc) :
    s'.running = s'.active.length ∧ s'.running ≤ mc := by
  obtain ⟨h1, h2⟩ := hinv
  cases h with
  | submit tid => exact ⟨h1, h2⟩
  | start t q hlt hq =>
      refine ⟨?_, hlt⟩
      simp [h1]
  | finishOk t hmem =>
      refine ⟨?_, le_trans (Nat.sub_le _ _) h2⟩
      rw [List.length_erase_of_mem hmem, h1]
  | finishReject t e hmem hne =>
      refine ⟨?_, le_trans (Nat.sub_le _ _) h2⟩
      rw [List.length_erase_of_mem hmem, h1]
  | retryWait t e hmem hrl hlt =>
      refine ⟨?_, le_trans (Nat.sub_le _ _) h2⟩
      rw [List.length_erase_of_mem hmem, h1]
  | requeue t hmem => exact ⟨h1, h2⟩

theorem rlreach_inv {mc mr : Nat} {ls : List RLLabel} {s : RLState}
    (h : RLReach mc mr RLState.init ls s) :
    s.running = s.active.length ∧ s.running ≤ mc := by
  induction h with
  | refl => exact ⟨rfl, Nat.zero_le mc⟩
  | step ls t ℓ t' _ hstep ih => exact rlstep_inv hstep ih

/-- Retry-budget invariant: queued and in-flight tasks carry at most
`maxRetries` accumulated retries; sleeping tasks strictly fewer (they were
admitted to the backoff path under `retryCount < maxRetries`). -/
theorem rlstep_budget {mc mr : Nat} {s : RLState} {ℓ : RLLabel} {s' : RLState}
    (h : RLStep mc mr s ℓ s')
    (hb : (∀ t ∈ s.queue, t.retryCount ≤ mr) ∧ (∀ t ∈ s.active, t.retryCount ≤ mr) ∧
          (∀ t ∈ s.sleeping, t.retryCount < mr)) :
    (∀ t ∈ s'.queue, t.retryCount ≤ mr) ∧ (∀ t ∈ s'.active, t.retryCount ≤ mr) ∧
    (∀ t ∈ s'.sleeping, t.retryCount < mr) := by
  obtain ⟨hq, ha, hs⟩ := hb
  cases h with
  | submit tid =>
      refine ⟨?_, ha, hs⟩
      intro t ht
      rcases List.mem_append.mp ht with h | h
      · exact hq t h
      · simp only [List.mem_singleton] at h
        subst h
        exact Nat.zero_le mr
  | start t q hlt hqe =>
      refine ⟨?_, ?_, hs⟩
      · intro u hu
        exact hq u (by rw [hqe]; exact List.mem_cons_of_mem _ hu)
      · intro u hu
        rcases List.mem_append.mp hu with h | h
        · exact ha u h
        · simp only [List.mem_singleton] at h
          subst h
          exact hq u (by rw [hqe]; exact List.mem_cons_self _ _)
  | finishOk t hmem =>
      exact ⟨hq, fun u hu => ha u (List.mem_of_mem_erase hu), hs⟩
  | finishReject t e hmem hne =>
      exact ⟨hq, fun u hu => ha u (List.mem_of_mem_erase hu), hs⟩
  | retryWait t e hmem hrl hlt =>
      refine ⟨hq, fun u hu => ha u (List.mem_of_mem_erase hu), ?_⟩
      intro u hu
      rcases List.mem_append.mp hu with h | h
      · exact hs u h
      · simp only [List.mem_singleton] at h
        subst h
        exact hlt
  | requeue t hmem =>
      refine ⟨?_, ha, fun u hu => hs u (List.mem_of_mem_erase hu)⟩
      intro u hu
      rcases List.mem_append.mp hu with h | h
      · exact hq u h
      · simp only [List.mem_singleton] at h
        subst h
        exact hs t hmem

theorem rlreach_budget {mc mr : Nat} {ls : List RLLabel} {s : RLState}
    (h : RLReach mc mr RLState.init ls s) :
    (∀ t ∈ s.queue, t.retryCount ≤ mr) ∧ (∀ t ∈ s.active, t.retryCount ≤ mr) ∧
    (∀ t ∈ s.sleeping, t.retryCount < mr) := by
  induction h with
  | refl => exact ⟨by simp [RLState.init], by simp [RLState.init], by simp [RLState.init]⟩
  | step ls t ℓ t' _ hstep ih => exact rlstep_budget hstep ih

/-- **C4.** Classification and backoff policy of the rate limiter:
a rejection not classified rate-limited (or with the budget exhausted) is
rejected terminally and stays rejected; a retry happens exactly for
rate-limited errors with `retryCount < maxRetries`, waits
`min(1000·2^r, 10000)` ms and re-enqueues with `retryCount + 1`; retry
delays are strictly increasing over the retry counts reachable under the
repository's `maxRetries = 3` (indeed up to retry count 4, where the
10000 ms cap is reached); and no task ever accumulates more than
`maxRetries` retries. -/
theorem rateLimiter_retry_policy (mc mr : Nat) :
    (∀ s t e s', RLStep mc mr s (.finishReject t e) s' →
        ¬(isRateLimitError e = true ∧ t.retryCount < mr) ∧ (t.tid, e) ∈ s'.rejected)
  ∧ (∀ s ℓ s' p, RLStep mc mr s ℓ s' → p ∈ s.rejected → p ∈ s'.rejected)
  ∧ (∀ s t e d s', RLStep mc mr s (.retryWait t e d) s' →
        isRateLimitError e = true ∧ t.retryCount < mr ∧
        d = getRetryDelay t.retryCount ∧ t ∈ s'.sleeping)
  ∧ (∀ s t s', RLStep mc mr s (.requeue t) s' →
        (⟨t.tid, t.retryCount + 1⟩ : RLTask) ∈ s'.queue)
  ∧ (∀ r, getRetryDelay r = min (1000 * 2 ^ r) 10000)
  ∧ (∀ r r', r < r' → r' ≤ 4 → getRetryDelay r < getRetryDelay r')
  ∧ MAX_RETRIES = 3
  ∧ (∀ ls s, RLReach mc mr RLState.init ls s →
        ∀ t, (t ∈ s.queue ∨ t ∈ s.active ∨ t ∈ s.sleeping) → t.retryCount ≤ mr) := by
  refine ⟨?_, ?_, ?_, ?_, fun r => rfl, ?_, rfl, ?_⟩
  · intro s t e s' h
    cases h with
    | finishReject t e hmem hne => exact ⟨hne, by simp⟩
  · intro s ℓ s' p h hp
    cases h <;> simp_all
  · intro s t e d s' h
    cases h with
    | retryWait t e hmem hrl hlt => exact ⟨hrl, hlt, rfl, by simp⟩
  · intro s t s' h
    cases h with
    | requeue t hmem => simp
  · intro r r' hlt hle
    interval_cases r' <;> interval_cases r <;> decide
  · intro ls s h t ht
    obtain ⟨hq, ha, hs⟩ := rlreach_budget h
    rcases ht with h1 | h1 | h1
    · exact hq t h1
    · exact ha t h1
    · exact le_of_lt (hs t h1)

/-- Concrete instantiation of the retry policy: a `"HTTP 429"` rejection at
retry count 0 under `maxRetries = 3` is classified rate-limited, waits
`getRetryDelay 0 = 1000` ms, and the delay strictly increases to the next
attempt. -/
theorem rateLimiter_retry_policy_witness :
    (isRateLimitError ⟨"HTTP 429", none, none⟩ = true ∧ (0 : Nat) < 3 ∧
      (1000 : Nat) = getRetryDelay 0 ∧
      (⟨7, 0⟩ : RLTask) ∈
        ({ RLState.init with sleeping := [] ++ [⟨7, 0⟩] } : RLState).sleeping)
  ∧ getRetryDelay 0 < getRetryDelay 1 := by
  constructor
  · exact (rateLimiter_retry_policy 2 3).2.2.1
      { RLState.init with active := [⟨7, 0⟩] } ⟨7, 0⟩ ⟨"HTTP 429", none, none⟩
      (getRetryDelay 0) _
      (RLStep.retryWait _ ⟨7, 0⟩ ⟨"HTTP 429", none, none⟩ (by simp) (by decide) (by decide))
  · exact (rateLimiter_retry_policy 2 3).2.2.2.2.2.1 0 1 (by decide) (by decide)

/-- **C3.** For every pattern of submissions via `execute`/`executeAll` and
every cooperative interleaving, the rate limiter's `running` counter always
equals the number of operations that have been started and not yet
completed, and it never exceeds `maxConcurrent`. -/
theorem rateLimiter_never_exceeds_maxConcurrent
    (mc mr : Nat) (ls : List RLLabel) (s : RLState)
    (h : RLReach mc mr RLState.init ls s) :
    s.running = s.active.length ∧ s.running ≤ mc :=
  rlreach_inv h

/-! Chunking and sampling lemmas. -/

theorem chunkGo_eq_chunkGo (k : Nat) :
    ∀ (f1 : Nat) (f2 : Nat) (l : List α), l.length ≤ f1 → l.length ≤ f2 →
      chunkGo k f1 l = chunkGo k f2 l := by
  intro f1
  induction f1 with
  | zero =>
      intro f2 l h1 h2
      have : l = [] := List.length_eq_zero.mp (Nat.le_zero.mp h1)
      subst this
      cases f2 <;> rfl
  | succ n ih =>
      intro f2 l h1 h2
      match l with
      | [] => cases f2 <;> rfl
      | x :: xs =>
        match f2, h2 with
        | m + 1, h2 =>
          have hd : (xs.drop (k - 1)).length ≤ xs.length := by
            rw [List.length_drop]; omega
          have hxs1 : xs.length ≤ n := Nat.succ_le_succ_iff.mp h1
          have hxs2 : xs.length ≤ m := Nat.succ_le_succ_iff.mp h2
          show (x :: xs.take (k - 1)) :: chunkGo k n (xs.drop (k - 1)) =
               (x :: xs.take (k - 1)) :: chunkGo k m (xs.drop (k - 1))
          exact congrArg _ (ih m _ (le_trans hd hxs1) (le_trans hd hxs2))

theorem chunkList_nil (k : Nat) : chunkList k ([] : List α) = [] := rfl

theorem chunkList_cons (k : Nat) (x : α) (xs : List α) :
    chunkList k (x :: xs) = (x :: xs.take (k - 1)) :: chunkList k (xs.drop (k - 1)) := by
  show (x :: xs.take (k - 1)) :: chunkGo k xs.length (xs.drop (k - 1)) =
       (x :: xs.take (k - 1)) :: chunkGo k (xs.drop (k - 1)).length (xs.drop (k - 1))
  refine congrArg _ (chunkGo_eq_chunkGo k _ _ _ ?_ le_rfl)
  rw [List.length_drop]; omega

theorem chunkList_join (k : Nat) : ∀ l : List α, (chunkList k l).flatten = l
  | [] => rfl
  | x :: xs => by
    rw [chunkList_cons]
    simp only [List.flatten_cons]
    rw [chunkList_join k (xs.drop (k - 1))]
    simp [List.take_append_drop]
termination_by l => l.length
decreasing_by simp [List.length_drop]; omega

theorem chunkList_mem_bounds (k : Nat) (hk : 0 < k) :
    ∀ (l : List α) (g : List α), g ∈ chunkList k l → g.length ≤ k ∧ g ≠ []
  | [], g => by simp [chunkList_nil]
  | x :: xs, g => by
    rw [chunkList_cons]
    intro hg
    rcases List.mem_cons.mp hg with h | h
    · subst h
      refine ⟨?_, by simp⟩
      simp only [List.length_cons, List.length_take]
      omega
    · exact chunkList_mem_bounds k hk (xs.drop (k - 1)) g h
termination_by l => l.length
decreasing_by simp [List.length_drop]; omega

theorem get_cons_eraseIdx_perm :
    ∀ (l : List α) (i : Nat) (h : i < l.length), (l.get ⟨i, h⟩ :: l.eraseIdx i).Perm l
  | x :: xs, 0, _ => by simp
  | x :: xs, i + 1, h => by
    show (xs.get ⟨i, _⟩ :: x :: xs.eraseIdx i).Perm (x :: xs)
    exact List.Perm.trans (List.Perm.swap _ _ _)
      ((get_cons_eraseIdx_perm xs i (Nat.succ_lt_succ_iff.mp h)).cons x)

theorem sampleLoop_length :
    ∀ (n : Nat) (copy : List α) (rand : Nat → Nat) (step : Nat), n ≤ copy.length →
      (sampleLoop n copy rand step).length = n
  | 0, _, _, _, _ => rfl
  | n + 1, copy, rand, step, h => by
    have hpos : 0 < copy.length := lt_of_lt_of_le (Nat.succ_pos n) h
    have hi : rand step % copy.length < copy.length := Nat.mod_lt _ hpos
    have hlen : n ≤ (copy.eraseIdx (rand step % copy.length)).length := by
      rw [List.length_eraseIdx, if_pos hi]; omega
    simp only [sampleLoop]
    rw [List.get?_eq_get hi]
    simp only [List.length_cons]
    rw [sampleLoop_length n _ rand (step + 1) hlen]

theorem sampleLoop_subperm :
    ∀ (n : Nat) (copy : List α) (rand : Nat → Nat) (step : Nat),
      ∃ rest, (sampleLoop n copy rand step ++ rest).Perm copy
  | 0, copy, _, _ => ⟨copy, List.Perm.refl copy⟩
  | n + 1, copy, rand, step => by
    simp only [sampleLoop]
    cases hget : copy.get? (rand step % copy.length) with
    | none => exact ⟨copy, by simp⟩
    | some x =>
      obtain ⟨hi, hx⟩ := List.get?_eq_some.mp hget
      obtain ⟨rest, hperm⟩ :=
        sampleLoop_subperm n (copy.eraseIdx (rand step % copy.length)) rand (step + 1)
      refine ⟨rest, ?_⟩
      exact List.Perm.trans (hperm.cons x) (hx ▸ get_cons_eraseIdx_perm copy _ hi)

theorem getRandomItems_length (arr : List α) (n : Nat) (rand : Nat → Nat) :
    (getRandomItems arr n rand).length = min n arr.length := by
  unfold getRandomItems
  by_cases h : arr.length ≤ n
  · simp [h, Nat.min_eq_right h]
  · have h' : n ≤ arr.length := le_of_lt (Nat.lt_of_not_le h)
    simp [h, sampleLoop_length n arr rand 0 h', Nat.min_eq_left h']

theorem getRandomItems_subperm (arr : List α) (n : Nat) (rand : Nat → Nat) :
    ∃ rest, (getRandomItems arr n rand ++ rest).Perm arr := by
  unfold getRandomItems
  by_cases h : arr.length ≤ n
  · exact ⟨[], by simp [h]⟩
  · simpa [h] using sampleLoop_subperm n arr rand 0

/-- **C7.** Patch selection partitions the input into contiguous groups of
`GROUP_SIZE` (each group non-empty and of size at most `GROUP_SIZE`, the
concatenation of the groups in order being the original list), draws
`min(SELECT_PER_GROUP, group.length)` items without replacement from each
group (the selection of a group is a sub-permutation of it), concatenates
the per-group selections in group order, and on 250 patches the groups
have sizes `[100, 100, 50]` and exactly 90 patches are selected, for every
oracle of random draws.  (The uniformity of `Math.random()` itself is
abstracted by the oracle.) -/
theorem patchSelector_stratified (α : Type) :
    (∀ l : List α, (chunkList GROUP_SIZE l).flatten = l)
  ∧ (∀ (l g : List α), g ∈ chunkList GROUP_SIZE l → g.length ≤ GROUP_SIZE ∧ g ≠ [])
  ∧ (∀ (g : List α) (n : Nat) (rand : Nat → Nat),
      (getRandomItems g n rand).length = min n g.length ∧
      ∃ rest, (getRandomItems g n rand ++ rest).Perm g)
  ∧ (∀ (l : List α) (rand : Nat → Nat → Nat),
      selectPatches l rand =
        ((chunkList GROUP_SIZE l).enum.map
          (fun gi => getRandomItems gi.2 (min SELECT_PER_GROUP gi.2.length) (rand gi.1))).flatten)
  ∧ (∀ (l : List α) (rand : Nat → Nat → Nat), l.length = 250 →
      (chunkList GROUP_SIZE l).map List.length = [100, 100, 50] ∧
      (selectPatches l rand).length = 90) := by
  refine ⟨chunkList_join GROUP_SIZE,
          fun l g => chunkList_mem_bounds GROUP_SIZE (by decide) l g,
          fun g n rand => ⟨getRandomItems_length g n rand, getRandomItems_subperm g n rand⟩,
          fun l rand => rfl, ?_⟩
  intro l rand hlen
  match l, hlen with
  | x :: xs, hlen =>
    have hxs : xs.length = 249 := by simpa using hlen
    have hchunks : chunkList GROUP_SIZE (x :: xs) =
        (x :: xs.take 99) :: chunkList GROUP_SIZE (xs.drop 99) := chunkList_cons _ _ _
    have hd1 : (xs.drop 99).length = 150 := by rw [List.length_drop]; omega
    match hd : xs.drop 99, hd1 with
    | y :: ys, hd1 =>
      have hys : ys.length = 149 := by simpa using hd1
      have hchunks2 : chunkList GROUP_SIZE (y :: ys) =
          (y :: ys.take 99) :: chunkList GROUP_SIZE (ys.drop 99) := chunkList_cons _ _ _
      have hd2 : (ys.drop 99).length = 50 := by rw [List.length_drop]; omega
      match hd' : ys.drop 99, hd2 with
      | z :: zs, hd2 =>
        have hzs : zs.length = 49 := by simpa using hd2
        have hchunks3 : chunkList GROUP_SIZE (z :: zs) =
            (z :: zs.take 99) :: chunkList GROUP_SIZE (zs.drop 99) := chunkList_cons _ _ _
        have hd3 : zs.drop 99 = [] := by
          apply List.length_eq_zero.mp
          rw [List.length_drop]; omega
        have hl1 : (x :: xs.take 99).length = 100 := by
          simp only [List.length_cons, List.length_take]; omega
        have hl2 : (y :: ys.take 99).length = 100 := by
          simp only [List.length_cons, List.length_take]; omega
        have hl3 : (z :: zs.take 99).length = 50 := by
          simp only [List.length_cons, List.length_take]; omega
        have hch : chunkList GROUP_SIZE (x :: xs) =
            [x :: xs.take 99, y :: ys.take 99, z :: zs.take 99] := by
          rw [hchunks, hd, hchunks2, hd', hchunks3, hd3, chunkList_nil]
        constructor
        · rw [hch]
          simp [hl1, hl2, hl3]
        · show (((chunkList GROUP_SIZE (x :: xs)).enum.map
            (fun gi => getRandomItems gi.2 (min SELECT_PER_GROUP gi.2.length) (rand gi.1))).flatten).length = 90
          rw [hch]
          simp only [List.enum, List.enumFrom, List.map_cons, List.map_nil,
            List.flatten_cons, List.flatten_nil, List.length_append, List.append_nil,
            getRandomItems_length]
          rw [hl1, hl2, hl3]
          decide

/-- Instantiation of the selection counts at a concrete 250-element list. -/
theorem patchSelector_stratified_witness :
    (chunkList GROUP_SIZE (List.range 250)).map List.length = [100, 100, 50] ∧
    (selectPatches (List.range 250) (fun _ _ => 0)).length = 90 :=
  (patchSelector_stratified Nat).2.2.2.2 (List.range 250) (fun _ _ => 0) (by simp)

/-- Concrete execution reaching a state with one running operation under
`maxConcurrent = 2`: the invariant evaluates there. -/
theorem rateLimiter_never_exceeds_maxConcurrent_witness :
    ∃ s : RLState,
      RLReach 2 3 RLState.init [.submit ⟨0, 0⟩, .start ⟨0, 0⟩] s ∧
      s.running = s.active.length ∧ s.running ≤ 2 := by
  have hreach : RLReach 2 3 RLState.init [.submit ⟨0, 0⟩, .start ⟨0, 0⟩]
      ⟨1, [], [⟨0, 0⟩], [], [], []⟩ :=
    RLReach.step _ _ _ _ _
      (RLReach.step _ _ _ _ _ (RLReach.refl _) (RLStep.submit _ 0))
      (RLStep.start _ ⟨0, 0⟩ [] (by decide) rfl)
  exact ⟨_, hreach, rateLimiter_never_exceeds_maxConcurrent 2 3 _ _ hreach⟩

end Nautilus

namespace Nautilus

/-- **C9.** Recording `"HTTP 429"`, `"status: 429"` and `"429 Rate Limit"`
normalizes all three to the same key `"HTTP Rate Limit (429)"`, whose
frequency reaches 3, while only the first raw message is stored. -/
theorem recordError_aggregates_429 :
    normalizeErrorKey "HTTP 429" = "HTTP Rate Limit (429)"
  ∧ normalizeErrorKey "status: 429" = "HTTP Rate Limit (429)"
  ∧ normalizeErrorKey "429 Rate Limit" = "HTTP Rate Limit (429)"
  ∧ getCount (recordError (recordError (recordError Stats.init "HTTP 429")
      "status: 429") "429 Rate Limit").errorCounts "HTTP Rate Limit (429)" = 3
  ∧ (recordError (recordError (recordError Stats.init "HTTP 429")
      "status: 429") "429 Rate Limit").errors = ["HTTP 429"] := by
  refine ⟨?_, ?_, ?_, ?_, ?_⟩ <;> rfl

/-- **C2 (code bug).** On a patch with one chat of two messages that are
both selected, the stored metadata does not identify the messages'
original positions: because `flatIndex = selectedMessages.length` is
captured once before the `chat.contents.map` callback runs (index.js line
637), every message of the chat writes the same `messageIndexMap` key, so
the record of the message at content position 0 carries
`content_index = 1` and the record of the message at flat position 1 finds
no map entry at all (`chat_index`/`content_index` absent), while
`message_index` is the index into the *selected* list, not the position in
the flattened concatenation of all messages of the patch. -/
theorem flatIndex_metadata_mismatch :
    c2Selection.1 = [wrapMsg 7 "u" c2MsgA, wrapMsg 7 "u" c2MsgB]
  ∧ c2Selection.2 = [(0, 0, 1)]
  ∧ (c2Records.map fun r =>
      (r.metadata.message_index, r.metadata.chat_index, r.metadata.content_index)) =
      [(0, some 0, some 1), (1, none, none)]
  ∧ (some 1 : Option Nat) ≠ some 0 ∧ (none : Option Nat) ≠ some 0 := by
  refine ⟨by decide, by decide, by decide, by decide, by decide⟩

end Nautilus

namespace Nautilus

/-- **C6.** Over the (always non-empty) list of per-patch results, the
final status is `"success"` exactly when no patch failed, `"partial"`
exactly when at least one succeeded and at least one failed, and
`"failed"` exactly when none succeeded.  (`runEmbeddingOperation` exits
before this point when the patch list is empty, so the non-emptiness
hypothesis always holds; the catastrophic-setup path aborts the process
before a result object is built at all.) -/
theorem finalStatus_partition (l : List RunResult) (h : l ≠ []) :
    (finalStatus l = "success" ↔ ∀ r ∈ l, isSuccessResult r = true)
  ∧ (finalStatus l = "partial" ↔
      ((∃ r ∈ l, isSuccessResult r = true) ∧ (∃ r ∈ l, isSuccessResult r = false)))
  ∧ (finalStatus l = "failed" ↔ ∀ r ∈ l, isSuccessResult r = false) := by
  have hne : ∃ r, r ∈ l := by
    obtain ⟨r, hr⟩ := List.exists_mem_of_ne_nil l h
    exact ⟨r, hr⟩
  have hfail0 : (l.filter (fun r => !isSuccessResult r)).length = 0 ↔
      ∀ r ∈ l, isSuccessResult r = true := by
    rw [List.length_eq_zero, List.filter_eq_nil_iff]
    constructor
    · intro hall r hr
      have := hall r hr
      simpa using this
    · intro hall r hr
      simp [hall r hr]
  have hsucc0 : 0 < (l.filter isSuccessResult).length ↔
      ∃ r ∈ l, isSuccessResult r = true := by
    rw [List.length_pos]
    constructor
    · intro hne'
      obtain ⟨r, hr⟩ := List.exists_mem_of_ne_nil _ hne'
      have := List.mem_filter.mp hr
      exact ⟨r, this.1, this.2⟩
    · rintro ⟨r, hr, hs⟩
      intro hnil
      have : r ∈ l.filter isSuccessResult := List.mem_filter.mpr ⟨hr, hs⟩
      simp [hnil] at this
  unfold finalStatus
  by_cases h1 : (l.filter (fun r => !isSuccessResult r)).length = 0
  · have hall := hfail0.mp h1
    rw [if_pos h1]
    refine ⟨⟨fun _ => hall, fun _ => rfl⟩, ?_, ?_⟩
    · constructor
      · intro hs
        exact absurd hs (by decide)
      · rintro ⟨_, ⟨r, hr, hfalse⟩⟩
        have := hall r hr
        rw [this] at hfalse
        exact absurd hfalse (by decide)
    · constructor
      · intro hs
        exact absurd hs (by decide)
      · intro hallf
        obtain ⟨r, hr⟩ := hne
        have h1' := hall r hr
        have h2' := hallf r hr
        rw [h1'] at h2'
        exact absurd h2' (by decide)
  · rw [if_neg h1]
    have hexf : ∃ r ∈ l, isSuccessResult r = false := by
      have : l.filter (fun r => !isSuccessResult r) ≠ [] := fun hnil => h1 (by simp [hnil])
      obtain ⟨r, hr⟩ := List.exists_mem_of_ne_nil _ this
      have := List.mem_filter.mp hr
      exact ⟨r, this.1, by simpa using this.2⟩
    by_cases h2 : 0 < (l.filter isSuccessResult).length
    · rw [if_pos h2]
      refine ⟨⟨fun hs => absurd hs (by decide), ?_⟩, ⟨fun _ => ⟨hsucc0.mp h2, hexf⟩, fun _ => rfl⟩,
              ⟨fun hs => absurd hs (by decide), ?_⟩⟩
      · intro hall
        obtain ⟨r, hr, hfalse⟩ := hexf
        have := hall r hr
        rw [this] at hfalse
        exact absurd hfalse (by decide)
      · intro hallf
        obtain ⟨r, hr, hs⟩ := hsucc0.mp h2
        have := hallf r hr
        rw [this] at hs
        exact absurd hs (by decide)
    · rw [if_neg h2]
      have hnos : ∀ r ∈ l, isSuccessResult r = false := by
        intro r hr
        by_contra hne'
        have hs : isSuccessResult r = true := by
          cases hval : isSuccessResult r
          · exact absurd hval hne'
          · rfl
        exact h2 (hsucc0.mpr ⟨r, hr, hs⟩)
      refine ⟨⟨fun hs => absurd hs (by decide), ?_⟩,
              ⟨fun hs => absurd hs (by decide), ?_⟩, ⟨fun _ => hnos, fun _ => rfl⟩⟩
      · intro hall
        obtain ⟨r, hr, hfalse⟩ := hexf
        have := hall r hr
        rw [this] at hfalse
        exact absurd hfalse (by decide)
      · rintro ⟨⟨r, hr, hs⟩, _⟩
        have := hnos r hr
        rw [this] at hs
        exact absurd hs (by decide)

/-- The three statuses at concrete result lists, via `finalStatus_partition`. -/
theorem finalStatus_partition_witness :
    finalStatus [RunResult.success 1 1 1] = "success"
  ∧ finalStatus [RunResult.success 1 1 1, RunResult.failed 0 "e"] = "partial"
  ∧ finalStatus [RunResult.failed 0 "e"] = "failed" := by
  refine ⟨?_, ?_, ?_⟩
  · exact (finalStatus_partition [RunResult.success 1 1 1] (by decide)).1.mpr (by decide)
  · exact (finalStatus_partition [RunResult.success 1 1 1, RunResult.failed 0 "e"]
      (by decide)).2.1.mpr ⟨⟨RunResult.success 1 1 1, by decide, rfl⟩,
        ⟨RunResult.failed 0 "e", by decide, rfl⟩⟩
  · exact (finalStatus_partition [RunResult.failed 0 "e"] (by decide)).2.2.mpr (by decide)

end Nautilus

namespace Nautilus

/-! Association-map lemmas for the dedup `Map`. -/

theorem mapGetStr_eq_none (acc : List (String × SelMsg)) (k : String) :
    mapGetStr acc k = none ↔ k ∉ acc.map Prod.fst := by
  induction acc with
  | nil => simp [mapGetStr]
  | cons kv rest ih =>
    obtain ⟨k', v'⟩ := kv
    by_cases hk : k' = k
    · subst hk
      simp [mapGetStr]
    · rw [List.map_cons, List.mem_cons]
      simp only [mapGetStr, if_neg hk]
      rw [ih]
      constructor
      · intro hn hin
        rcases hin with he | hin
        · exact hk (Eq.symm he)
        · exact hn hin
      · intro hn hin
        exact hn (Or.inr hin)

theorem mapSetStr_of_not_mem (acc : List (String × SelMsg)) (k : String) (v : SelMsg)
    (h : k ∉ acc.map Prod.fst) : mapSetStr acc k v = acc ++ [(k, v)] := by
  induction acc with
  | nil => rfl
  | cons kv rest ih =>
    obtain ⟨k', v'⟩ := kv
    simp only [List.map_cons, List.mem_cons] at h
    push_neg at h
    have hne : ¬(k' = k) := fun he => h.1 (Eq.symm he)
    simp [mapSetStr, hne, ih h.2]

theorem mapGetStr_mem (acc : List (String × SelMsg)) (k : String) (v : SelMsg)
    (h : mapGetStr acc k = some v) : (k, v) ∈ acc := by
  induction acc with
  | nil => simp [mapGetStr] at h
  | cons kv rest ih =>
    obtain ⟨k', v'⟩ := kv
    by_cases hk : k' = k
    · subst hk
      simp only [mapGetStr, if_pos rfl] at h
      injection h with h
      subst h
      exact List.mem_cons_self _ _
    · simp only [mapGetStr, if_neg hk] at h
      exact List.mem_cons_of_mem _ (ih h)

theorem mapSetStr_keys_of_mem (acc : List (String × SelMsg)) (k : String) (v : SelMsg)
    (h : k ∈ acc.map Prod.fst) :
    (mapSetStr acc k v).map Prod.fst = acc.map Prod.fst := by
  induction acc with
  | nil => simp at h
  | cons kv rest ih =>
    obtain ⟨k', v'⟩ := kv
    by_cases hk : k' = k
    · subst hk
      simp [mapSetStr]
    · simp only [List.map_cons, List.mem_cons] at h
      rcases h with h | h
      · exact absurd (Eq.symm h) hk
      · simp [mapSetStr, hk, ih h]

theorem mem_mapSetStr_nodup (acc : List (String × SelMsg))
    (hnd : (acc.map Prod.fst).Nodup) (k : String) (v : SelMsg) (kv : String × SelMsg)
    (h : kv ∈ mapSetStr acc k v) : kv = (k, v) ∨ (kv ∈ acc ∧ kv.1 ≠ k) := by
  induction acc with
  | nil =>
    simp only [mapSetStr, List.mem_singleton] at h
    exact Or.inl h
  | cons hd rest ih =>
    obtain ⟨k', v'⟩ := hd
    simp only [List.map_cons, List.nodup_cons] at hnd
    obtain ⟨hk'notin, hndrest⟩ := hnd
    by_cases hk : k' = k
    · subst hk
      simp only [mapSetStr, if_pos rfl] at h
      rcases List.mem_cons.mp h with h | h
      · exact Or.inl h
      · right
        refine ⟨List.mem_cons_of_mem _ h, fun hkv => ?_⟩
        exact hk'notin (hkv ▸ List.mem_map_of_mem Prod.fst h)
    · simp only [mapSetStr, if_neg hk] at h
      rcases List.mem_cons.mp h with h | h
      · subst h
        exact Or.inr ⟨List.mem_cons_self _ _, hk⟩
      · rcases ih hndrest h with h | h
        · exact Or.inl h
        · exact Or.inr ⟨List.mem_cons_of_mem _ h.1, h.2⟩

theorem mapGetStr_mapSetStr (acc : List (String × SelMsg)) (k : String) (v : SelMsg)
    (k' : String) :
    mapGetStr (mapSetStr acc k v) k' = if k' = k then some v else mapGetStr acc k' := by
  induction acc with
  | nil =>
    simp only [mapSetStr, mapGetStr]
    by_cases hk : k' = k
    · rw [if_pos hk, if_pos (Eq.symm hk)]
    · rw [if_neg hk, if_neg (fun h => hk (Eq.symm h))]
  | cons hd rest ih =>
    obtain ⟨k0, v0⟩ := hd
    simp only [mapSetStr]
    by_cases hk0 : k0 = k
    · rw [if_pos hk0]
      subst hk0
      by_cases hk' : k' = k0
      · subst hk'
        simp [mapGetStr]
      · have hne : ¬(k0 = k') := fun h => hk' (Eq.symm h)
        simp only [mapGetStr, if_neg hne, if_neg hk']
    · rw [if_neg hk0]
      by_cases hk' : k0 = k'
      · subst hk'
        simp [mapGetStr, hk0]
      · simp only [mapGetStr, if_neg hk']
        exact ih

theorem mapGetStr_of_mem_nodup (acc : List (String × SelMsg))
    (hnd : (acc.map Prod.fst).Nodup) (kv : String × SelMsg) (h : kv ∈ acc) :
    mapGetStr acc kv.1 = some kv.2 := by
  induction acc with
  | nil => simp at h
  | cons hd rest ih =>
    obtain ⟨k', v'⟩ := hd
    simp only [List.map_cons, List.nodup_cons] at hnd
    obtain ⟨hk'notin, hndrest⟩ := hnd
    rcases List.mem_cons.mp h with h | h
    · subst h
      simp [mapGetStr]
    · have hne : ¬(k' = kv.1) := by
        intro he
        exact hk'notin (he ▸ List.mem_map_of_mem Prod.fst h)
      simp only [mapGetStr, if_neg hne]
      exact ih hndrest h

/-- Invariant of the dedup fold over the processed prefix `seen`:
keys are distinct, each entry is keyed by its value's text, its value is a
processed message with the maximal timestamp among processed messages of
that text, and every processed text has an entry. -/
def DedupInv (seen : List SelMsg) (acc : List (String × SelMsg)) : Prop :=
  (acc.map Prod.fst).Nodup ∧
  (∀ kv ∈ acc, kv.2.message = kv.1 ∧ kv.2 ∈ seen ∧
     ∀ m ∈ seen, m.message = kv.1 → m.date ≤ kv.2.date) ∧
  (∀ m ∈ seen, ∃ v, mapGetStr acc m.message = some v)

theorem dedupStep_inv {seen : List SelMsg} {acc : List (String × SelMsg)} {m : SelMsg}
    (h : DedupInv seen acc) : DedupInv (seen ++ [m]) (dedupStep acc m) := by
  obtain ⟨hnd, hmem, hcov⟩ := h
  unfold dedupStep
  cases hget : mapGetStr acc m.message with
  | none =>
    show DedupInv (seen ++ [m]) (mapSetStr acc m.message m)
    have hnotin : m.message ∉ acc.map Prod.fst := (mapGetStr_eq_none acc m.message).mp hget
    refine ⟨?_, ?_, ?_⟩
    · rw [mapSetStr_of_not_mem _ _ _ hnotin, List.map_append]
      exact List.Nodup.append hnd (List.nodup_singleton _)
        (fun x hx hx' => by
          simp only [List.map_cons, List.map_nil, List.mem_singleton] at hx'
          exact hnotin (hx' ▸ hx))
    · intro kv hkv
      rw [mapSetStr_of_not_mem _ _ _ hnotin] at hkv
      rcases List.mem_append.mp hkv with hkv1 | hkv1
      · obtain ⟨h1, h2, h3⟩ := hmem kv hkv1
        refine ⟨h1, List.mem_append_left _ h2, ?_⟩
        intro m' hm' hmm
        rcases List.mem_append.mp hm' with hm' | hm'
        · exact h3 m' hm' hmm
        · simp only [List.mem_singleton] at hm'
          exfalso
          apply hnotin
          rw [← hm', hmm]
          exact List.mem_map_of_mem Prod.fst hkv1
      · simp only [List.mem_singleton] at hkv1
        subst hkv1
        refine ⟨rfl, List.mem_append_right _ (List.mem_singleton_self m), ?_⟩
        intro m' hm' hmm
        rcases List.mem_append.mp hm' with hm' | hm'
        · exfalso
          obtain ⟨v, hv⟩ := hcov m' hm'
          have hmm' : m'.message = m.message := hmm
          rw [hmm', hget] at hv
          exact absurd hv (by simp)
        · simp only [List.mem_singleton] at hm'
          exact le_of_eq (congrArg SelMsg.date hm')
    · intro m' hm'
      rw [mapGetStr_mapSetStr]
      rcases List.mem_append.mp hm' with hm' | hm'
      · by_cases he : m'.message = m.message
        · exact ⟨m, by rw [if_pos he]⟩
        · rw [if_neg he]
          exact hcov m' hm'
      · simp only [List.mem_singleton] at hm'
        exact ⟨m, by rw [if_pos (by rw [hm'])]⟩
  | some existing =>
    show DedupInv (seen ++ [m])
      (if existing.date < m.date then mapSetStr acc m.message m else acc)
    have hexmem : (m.message, existing) ∈ acc := mapGetStr_mem _ _ _ hget
    have hkin : m.message ∈ acc.map Prod.fst := List.mem_map_of_mem Prod.fst hexmem
    by_cases hdate : existing.date < m.date
    · rw [if_pos hdate]
      refine ⟨?_, ?_, ?_⟩
      · rw [mapSetStr_keys_of_mem _ _ _ hkin]
        exact hnd
      · intro kv hkv
        rcases mem_mapSetStr_nodup acc hnd _ _ kv hkv with hkv1 | ⟨hkv1, hkne⟩
        · subst hkv1
          refine ⟨rfl, List.mem_append_right _ (List.mem_singleton_self m), ?_⟩
          intro m' hm' hmm
          rcases List.mem_append.mp hm' with hm' | hm'
          · obtain ⟨_, _, hmax⟩ := hmem _ hexmem
            exact le_of_lt (lt_of_le_of_lt (hmax m' hm' hmm) hdate)
          · simp only [List.mem_singleton] at hm'
            exact le_of_eq (congrArg SelMsg.date hm')
        · obtain ⟨h1, h2, h3⟩ := hmem kv hkv1
          refine ⟨h1, List.mem_append_left _ h2, ?_⟩
          intro m' hm' hmm
          rcases List.mem_append.mp hm' with hm' | hm'
          · exact h3 m' hm' hmm
          · simp only [List.mem_singleton] at hm'
            exfalso
            apply hkne
            rw [← hmm, hm']
      · intro m' hm'
        rw [mapGetStr_mapSetStr]
        rcases List.mem_append.mp hm' with hm' | hm'
        · by_cases he : m'.message = m.message
          · exact ⟨m, by rw [if_pos he]⟩
          · rw [if_neg he]
            exact hcov m' hm'
        · simp only [List.mem_singleton] at hm'
          exact ⟨m, by rw [if_pos (by rw [hm'])]⟩
    · rw [if_neg hdate]
      refine ⟨hnd, ?_, ?_⟩
      · intro kv hkv
        obtain ⟨h1, h2, h3⟩ := hmem kv hkv
        refine ⟨h1, List.mem_append_left _ h2, ?_⟩
        intro m' hm' hmm
        rcases List.mem_append.mp hm' with hm' | hm'
        · exact h3 m' hm' hmm
        · simp only [List.mem_singleton] at hm'
          have hkv1 : kv.1 = m.message := by rw [← hmm, hm']
          have hval := mapGetStr_of_mem_nodup acc hnd kv hkv
          rw [hkv1, hget] at hval
          have hv : kv.2 = existing := by
            injection hval with h'
            exact h'.symm
          rw [hv]
          have : m'.date = m.date := congrArg SelMsg.date hm'
          rw [this]
          exact le_of_not_lt hdate
      · intro m' hm'
        rcases List.mem_append.mp hm' with hm' | hm'
        · exact hcov m' hm'
        · simp only [List.mem_singleton] at hm'
          refine ⟨existing, ?_⟩
          rw [hm']
          exact hget

theorem dedup_fold_inv :
    ∀ (l seen : List SelMsg) (acc : List (String × SelMsg)),
      DedupInv seen acc → DedupInv (seen ++ l) (l.foldl dedupStep acc)
  | [], seen, acc, h => by simpa using h
  | m :: rest, seen, acc, h => by
    have h' := dedupStep_inv (m := m) h
    have := dedup_fold_inv rest (seen ++ [m]) (dedupStep acc m) h'
    simpa [List.append_assoc] using this

theorem dedup_inv_final (l : List SelMsg) : DedupInv l (l.foldl dedupStep []) := by
  simpa using dedup_fold_inv l [] [] ⟨List.nodup_nil, by simp, by simp⟩

/-- **C8.** After deduplication, every surviving message is one of the
input messages and its timestamp is maximal among the input messages with
the same text; and for every text present in the input exactly one message
with that text survives. -/
theorem dedupe_keeps_latest :
    (∀ (l : List SelMsg) (m : SelMsg), m ∈ dedupeByText l →
       m ∈ l ∧ ∀ m' ∈ l, m'.message = m.message → m'.date ≤ m.date)
  ∧ (∀ (l : List SelMsg) (t : String), (∃ m ∈ l, m.message = t) →
       ((dedupeByText l).filter (fun m => m.message == t)).length = 1) := by
  constructor
  · intro l m hm
    obtain ⟨hnd, hmem, hcov⟩ := dedup_inv_final l
    unfold dedupeByText at hm
    obtain ⟨kv, hkv, hkv2⟩ := List.mem_map.mp hm
    obtain ⟨hmsg, hin, hmax⟩ := hmem kv hkv
    subst hkv2
    exact ⟨hin, fun m' hm' hmm => hmax m' hm' (by rw [hmm, hmsg])⟩
  · rintro l t ⟨m, hm, hmt⟩
    obtain ⟨hnd, hmem, hcov⟩ := dedup_inv_final l
    have htkeys : t ∈ (l.foldl dedupStep []).map Prod.fst := by
      obtain ⟨v, hv⟩ := hcov m hm
      rw [hmt] at hv
      exact List.mem_map_of_mem Prod.fst (mapGetStr_mem _ _ _ hv)
    unfold dedupeByText
    rw [List.filter_map, List.length_map, ← List.countP_eq_length_filter]
    have hpt : List.countP ((fun m : SelMsg => m.message == t) ∘ Prod.snd)
        (l.foldl dedupStep []) =
        List.countP ((fun k : String => k == t) ∘ Prod.fst) (l.foldl dedupStep []) := by
      refine List.countP_congr ?_
      intro kv hkv
      have h1 := (hmem kv hkv).1
      simp [Function.comp, h1]
    rw [hpt, ← List.countP_map (fun k : String => k == t) Prod.fst]
    have hcount : List.countP (fun k : String => k == t)
        ((l.foldl dedupStep []).map Prod.fst) =
        List.count t ((l.foldl dedupStep []).map Prod.fst) := rfl
    rw [hcount]
    refine Nat.le_antisymm (List.nodup_iff_count_le_one.mp hnd t) ?_
    exact List.count_pos_iff.mpr htkeys

/-- Of two `"dup"`-text messages at timestamps 100 and 200, only the
timestamp-200 instance survives deduplication. -/
theorem dedupe_keeps_latest_witness :
    dedupeByText [dupMsg100, dupMsg200] = [dupMsg200]
  ∧ ((dedupeByText [dupMsg100, dupMsg200]).filter (fun m => m.message == "dup")).length = 1
  ∧ (∀ m' ∈ [dupMsg100, dupMsg200], m'.message = dupMsg200.message →
       m'.date ≤ dupMsg200.date) := by
  refine ⟨by decide, ?_, ?_⟩
  · exact dedupe_keeps_latest.2 [dupMsg100, dupMsg200] "dup" ⟨dupMsg100, by decide, rfl⟩
  · exact (dedupe_keeps_latest.1 [dupMsg100, dupMsg200] dupMsg200 (by decide)).2

end Nautilus

namespace Nautilus

/-! Orchestrator step lemmas. -/

/-- Once the `try`/`catch` has settled a result, no later step changes it:
the caller was already answered when the first worker threw (or when all
workers finished). -/
theorem ostep_result_mono {msgs : List SelMsg} {bs : Nat} {env : OrchEnv}
    {s : OState} {ℓ : OLabel} {s' : OState} (h : OStep msgs bs env s ℓ s')
    {r : RunResult} (hr : s.result = some r) : s'.result = some r := by
  cases h <;> simp_all

/-- The embedding/storage counters always equal the total size of the
batches whose store phase has completed. -/
theorem oreach_counts {msgs : List SelMsg} {bs : Nat} {env : OrchEnv}
    {ls : List OLabel} {s : OState}
    (h : OReach msgs bs env (initOState msgs bs) ls s) :
    s.succEmb = sumSizes msgs bs s.completed ∧
    s.succStore = sumSizes msgs bs s.completed := by
  induction h with
  | refl => exact ⟨rfl, rfl⟩
  | step ls t ℓ t' _ hstep ih =>
    obtain ⟨ih1, ih2⟩ := ih
    cases hstep with
    | claim w h1 h2 => exact ⟨ih1, ih2⟩
    | noMore w h1 h2 => exact ⟨ih1, ih2⟩
    | embedOk w b h1 h2 => exact ⟨ih1, ih2⟩
    | embedFail w b j h1 h2 => exact ⟨ih1, ih2⟩
    | storeOk w b h1 h2 =>
      constructor <;> simp [sumSizes, ih1, ih2]
    | storeFail w b j h1 h2 => exact ⟨ih1, ih2⟩

theorem set_preserves_crashed (ws : List WStatus) (w w' : Nat) (st0 st1 : WStatus)
    (hcr : ws.get? w = some .crashed) (h1 : ws.get? w' = some st0)
    (hne : st0 ≠ .crashed) : (ws.set w' st1).get? w = some .crashed := by
  by_cases he : w' = w
  · subst he
    rw [h1] at hcr
    injection hcr with hcr
    exact absurd hcr hne
  · rw [List.get?_set_ne _ _ he]
    exact hcr

/-- **C1 (amended).** If the provider's outcome list for batch `b` (or a
record's store outcome) reports a first failure at index `j` while no
result is settled yet, the run settles immediately to `status "failed"`
with an error naming the id of message `j` of batch `b`, and
`processedCount` equal to the number of messages in the batches that had
fully completed before the failure — which, under the concurrency-4
runner, need not be the batches preceding `b` in submission order. -/
theorem orchestrator_fail_fast_processedCount
    (msgs : List SelMsg) (bs : Nat) (env : OrchEnv) (ls : List OLabel) (s : OState)
    (hr : OReach msgs bs env (initOState msgs bs) ls s)
    (w b j : Nat) (s' : OState) (hnone : s.result = none) :
    (OStep msgs bs env s (.embedFail w b j) s' →
       s'.result = some (.failed (sumSizes msgs bs s.completed)
         (embedFailError (msgIdAt msgs bs b j) (embedErrAt env b j))))
  ∧ (OStep msgs bs env s (.storeFail w b j) s' →
       s'.result = some (.failed (sumSizes msgs bs s.completed)
         (storeFailError (msgIdAt msgs bs b j) (storeErrAt env b j)))) := by
  obtain ⟨hcnt, _⟩ := oreach_counts hr
  constructor
  · intro hstep
    cases hstep with
    | embedFail w b j h1 h2 =>
      show (if s.result == none then _ else s.result) = _
      rw [hnone, hcnt]
      rfl
  · intro hstep
    cases hstep with
    | storeFail w b j h1 h2 =>
      show (if s.result == none then _ else s.result) = _
      rw [hnone, hcnt]
      rfl

/-- The amended C1 statement evaluated on a concrete two-batch run in
which batch 1 completes before batch 0's embedding fails: the settled
result is `failed` with `processedCount = 1` (the completed batch 1), not
the 0 messages of the batches preceding batch 0. -/
theorem orchestrator_fail_fast_processedCount_witness :
    c1FailState.result = some (.failed (sumSizes msgs2 1 c1MidState.completed)
      (embedFailError (msgIdAt msgs2 1 0 0) (embedErrAt env2 0 0)))
  ∧ sumSizes msgs2 1 c1MidState.completed = 1 := by
  have hreach : OReach msgs2 1 env2 (initOState msgs2 1)
      [.claim 0 0, .claim 1 1, .embedOk 1 1, .storeOk 1 1] c1MidState :=
    OReach.step _ _ _ _ _
      (OReach.step _ _ _ _ _
        (OReach.step _ _ _ _ _
          (OReach.step _ _ _ _ _ (OReach.refl _)
            (OStep.claim _ 0 (by decide) (by decide)))
          (OStep.claim _ 1 (by decide) (by decide)))
        (OStep.embedOk _ 1 1 (by decide) (by decide)))
      (OStep.storeOk _ 1 1 (by decide) (by decide))
  have hstep : OStep msgs2 1 env2 c1MidState (.embedFail 0 0 0) c1FailState :=
    OStep.embedFail _ 0 0 0 (by decide) (by decide)
  exact ⟨(orchestrator_fail_fast_processedCount msgs2 1 env2 _ c1MidState hreach
    0 0 0 c1FailState rfl).1 hstep, by decide⟩

/-- **C1 (counterexample to the claim as stated).** A reachable execution
of the orchestrator on two one-message batches in which batch 1 (index 1)
fully completes while batch 0 is still awaiting its embedding, which then
fails: the settled result carries `processedCount = 1`, but the number of
messages in the batches strictly before the failing batch 0 is 0. -/
theorem orchestrator_processedCount_batch_order_counterexample :
    ∃ s : OState,
      OReach msgs2 1 env2 (initOState msgs2 1)
        [.claim 0 0, .claim 1 1, .embedOk 1 1, .storeOk 1 1, .embedFail 0 0 0] s ∧
      s.result = some (.failed 1 (embedFailError 1 "boom")) ∧
      msgsBeforeBatch msgs2 1 0 = 0 ∧ (1 : Nat) ≠ 0 := by
  refine ⟨_, OReach.step _ _ _ _ _
      (OReach.step _ _ _ _ _
        (OReach.step _ _ _ _ _
          (OReach.step _ _ _ _ _
            (OReach.step _ _ _ _ _ (OReach.refl _)
              (OStep.claim _ 0 (by decide) (by decide)))
            (OStep.claim _ 1 (by decide) (by decide)))
          (OStep.embedOk _ 1 1 (by decide) (by decide)))
        (OStep.storeOk _ 1 1 (by decide) (by decide)))
      (OStep.embedFail _ 0 0 0 (by decide) (by decide)), by decide, by decide, by decide⟩

end Nautilus

namespace Nautilus

/-- **C5 (counterexample to the claim as stated).** A reachable execution
of the concurrent batch runner (five one-message batches, four workers) in
which worker 1, after finishing batch 1, claims the still-unclaimed batch
4 *after* worker 0's operation on batch 0 has already thrown: nothing in
`parallelProcess` stops the surviving workers from claiming new items once
a sibling has failed. -/
theorem parallelProcess_claim_after_throw_counterexample :
    ∃ s : OState,
      OReach msgs5 1 env5 (initOState msgs5 1) c5Trace s ∧
      claimAfterThrow c5Trace = true := by
  refine ⟨_, OReach.step _ _ _ _ _
      (OReach.step _ _ _ _ _
        (OReach.step _ _ _ _ _
          (OReach.step _ _ _ _ _
            (OReach.step _ _ _ _ _
              (OReach.step _ _ _ _ _
                (OReach.step _ _ _ _ _
                  (OReach.step _ _ _ _ _ (OReach.refl _)
                    (OStep.claim _ 0 (by decide) (by decide)))
                  (OStep.claim _ 1 (by decide) (by decide)))
                (OStep.claim _ 2 (by decide) (by decide)))
              (OStep.claim _ 3 (by decide) (by decide)))
            (OStep.embedOk _ 1 1 (by decide) (by decide)))
          (OStep.storeOk _ 1 1 (by decide) (by decide)))
        (OStep.embedFail _ 0 0 0 (by decide) (by decide)))
      (OStep.claim _ 1 (by decide) (by decide)), by decide⟩

/-- **C5 (amended).** Once a worker's operation has thrown: that worker is
terminal (its `crashed` status survives every step, and claim steps are
only taken by `idle` workers, so it claims nothing further); the aggregate
result was settled at the first throw and no later step changes it (the
aggregate call rejects as soon as any one worker's run throws); and a
worker already holding a claimed item still runs it to completion (its
store step stays enabled regardless of other workers' crashes).  Other
workers, however, may go on to claim new unclaimed items (see the
counterexample). -/
theorem parallelProcess_failfast_no_cancellation
    (msgs : List SelMsg) (bs : Nat) (env : OrchEnv) :
    (∀ (s : OState) (ℓ : OLabel) (s' : OState) (w : Nat),
       OStep msgs bs env s ℓ s' → s.workers.get? w = some .crashed →
       s'.workers.get? w = some .crashed)
  ∧ (∀ (s : OState) (w b : Nat) (s' : OState),
       OStep msgs bs env s (.claim w b) s' → s.workers.get? w = some .idle)
  ∧ (∀ (s : OState) (ℓ : OLabel) (s' : OState) (r : RunResult),
       OStep msgs bs env s ℓ s' → s.result = some r → s'.result = some r)
  ∧ (∀ (s : OState) (w b : Nat), s.workers.get? w = some (.awaitStore b) →
       storeFailIdx env b = none →
       OStep msgs bs env s (.storeOk w b)
         { s with succEmb := s.succEmb + (batchAt msgs bs b).length,
                  succStore := s.succStore + (batchAt msgs bs b).length,
                  workers := s.workers.set w .idle,
                  completed := s.completed ++ [b] }) := by
  refine ⟨?_, ?_, ?_, ?_⟩
  · intro s ℓ s' w hstep hcr
    cases hstep with
    | claim w' h1 h2 => exact set_preserves_crashed _ _ _ _ _ hcr h1 (by decide)
    | noMore w' h1 h2 => exact set_preserves_crashed _ _ _ _ _ hcr h1 (by decide)
    | embedOk w' b h1 h2 =>
      exact set_preserves_crashed _ _ _ _ _ hcr h1 (fun h => by injection h)
    | embedFail w' b j h1 h2 =>
      exact set_preserves_crashed _ _ _ _ _ hcr h1 (fun h => by injection h)
    | storeOk w' b h1 h2 =>
      exact set_preserves_crashed _ _ _ _ _ hcr h1 (fun h => by injection h)
    | storeFail w' b j h1 h2 =>
      exact set_preserves_crashed _ _ _ _ _ hcr h1 (fun h => by injection h)
  · intro s w b s' hstep
    cases hstep with
    | claim w h1 h2 => exact h1
  · intro s ℓ s' r hstep hr
    exact ostep_result_mono hstep hr
  · intro s w b h1 h2
    exact OStep.storeOk s w b h1 h2

/-- The amended C5 statement at a concrete state with a crashed worker and
a settled failure: a further (`noMore`) step keeps worker 0 crashed and
keeps the settled result. -/
theorem parallelProcess_failfast_no_cancellation_witness :
    ∃ s' : OState,
      OStep msgs2 1 env2 c1FailState (.noMore 1) s' ∧
      s'.workers.get? 0 = some .crashed ∧
      s'.result = some (.failed 1 (embedFailError 1 "boom")) := by
  refine ⟨_, OStep.noMore _ 1 (by decide) (by decide), ?_, ?_⟩
  · exact (parallelProcess_failfast_no_cancellation msgs2 1 env2).1 _ _ _ 0
      (OStep.noMore _ 1 (by decide) (by decide)) (by decide)
  · exact (parallelProcess_failfast_no_cancellation msgs2 1 env2).2.2.1 _ _ _ _
      (OStep.noMore _ 1 (by decide) (by decide)) rfl

end Nautilus

namespace Nautilus

/-- **C10.** When the selection pipeline yields no messages,
`processMessagesByMessage` returns `{status: "success", processedCount: 0,
successfulEmbeddings: 0, successfulVectorStorages: 0}` at once: the only
possible run is the early return with the empty trace (no `embedBatch` or
`storeBatch` event ever occurs), the result counts as a success, and the
enclosing per-patch loop records the patch as processed successfully
(incrementing `processedPatches`, leaving `failedProcessing` untouched). -/
theorem empty_selection_success (botId : Int) (nowMs : Int) (isEmoji : Char → Bool)
    (rand : Nat → Nat → Nat) (p : PatchData) (bs : Nat) (env : OrchEnv)
    (h : (selectMessages botId nowMs isEmoji rand p).1 = []) :
    PatchRun botId nowMs isEmoji rand p bs env [] emptyRunResult
  ∧ (∀ (ls : List OLabel) (r : RunResult),
       PatchRun botId nowMs isEmoji rand p bs env ls r → ls = [] ∧ r = emptyRunResult)
  ∧ emptyRunResult = RunResult.success 0 0 0
  ∧ isSuccessResult emptyRunResult = true
  ∧ (∀ st : Stats,
       (recordPatchOutcome st 1 emptyRunResult).processedPatches = st.processedPatches + 1 ∧
       (recordPatchOutcome st 1 emptyRunResult).failedProcessing = st.failedProcessing ∧
       (recordPatchOutcome st 1 emptyRunResult).totalMessages = st.totalMessages) := by
  refine ⟨PatchRun.empty h, ?_, rfl, rfl, ?_⟩
  · intro ls r hrun
    cases hrun with
    | empty _ => exact ⟨rfl, rfl⟩
    | run ls s r hne _ _ => exact absurd h hne
  · intro st
    exact ⟨rfl, rfl, rfl⟩

/-- The empty-selection behaviour on a patch with no chats. -/
theorem empty_selection_success_witness :
    PatchRun 999 0 (fun _ => false) (fun _ _ => 0) emptyPatch 50 env2 [] emptyRunResult
  ∧ (recordPatchOutcome Stats.init 1 emptyRunResult).processedPatches = 1
  ∧ (recordPatchOutcome Stats.init 1 emptyRunResult).failedProcessing = 0 := by
  have h := empty_selection_success 999 0 (fun _ => false) (fun _ _ => 0) emptyPatch
    50 env2 rfl
  exact ⟨h.1, (h.2.2.2.2 Stats.init).1, (h.2.2.2.2 Stats.init).2.1⟩

end Nautilus
